import Mathlib

/-!
Shallow embedding of the graphjin query-compiler core
(`core/internal/qcode/qcode.go`, `core/internal/qcode/fn.go`,
`core/internal/sdata/schema.go`) and proofs about the invariants,
functional-correctness and error-handling properties stated in the
design specification.

Go machine integers are modelled as `Int`/`Nat` (with explicit masks
where the source masks), Go slices as `List`, Go maps as association
lists, Go `error` returns as `Except String`.  Names follow the Go
source (`Type` fields are renamed `typ` because `Type` is a Lean
keyword).
-/

set_option maxRecDepth 4000

namespace GraphJin

/-! ## sdata: columns, tables, relationships (`sdata/schema.go`) -/

/-- Go `sdata.DBColumn`. -/
structure DBColumn where
  id : Int := 0
  schema : String := ""
  table : String := ""
  name : String := ""
  typ : String := ""
  notNull : Bool := false
  primaryKey : Bool := false
  uniqueKey : Bool := false
  array : Bool := false
  fKeySchema : String := ""
  fKeyTable : String := ""
  fKeyCol : String := ""
  blocked : Bool := false
deriving DecidableEq

/-- Go `sdata.DBTable`.  The Go struct keeps a `colMap` (name to index)
built by the loader; look-ups through it are modelled as a first-match
scan over `columns`. -/
structure DBTable where
  schema : String := ""
  name : String := ""
  typ : String := ""
  columns : List DBColumn := []
  primaryCol : DBColumn := {}
  secondaryCol : DBColumn := {}
  fullText : List DBColumn := []
  blocked : Bool := false
deriving DecidableEq

/-- Go `sdata.RelType`; the zero value is `RelNone`. -/
inductive RelType where
  | RelNone
  | RelOneToOne
  | RelOneToMany
  | RelPolymorphic
  | RelRecursive
  | RelEmbedded
  | RelRemote
  | RelSkip
deriving DecidableEq

/-- Go `sdata.DBRelLeft`. -/
structure DBRelLeft where
  ti : DBTable := {}
  col : DBColumn := {}
deriving DecidableEq

/-- Go `sdata.DBRelRight`. -/
structure DBRelRight where
  vTable : String := ""
  ti : DBTable := {}
  col : DBColumn := {}
deriving DecidableEq

/-- Go `sdata.DBRelThrough`. -/
structure DBRelThrough where
  ti : DBTable := {}
  colL : DBColumn := {}
  colR : DBColumn := {}
deriving DecidableEq

/-- Go `sdata.DBRel`. -/
structure DBRel where
  typ : RelType := .RelNone
  through : DBRelThrough := {}
  left : DBRelLeft := {}
  right : DBRelRight := {}
deriving DecidableEq

/-- Go `(*DBTable).getColumn` — the `colMap` lookup. -/
def DBTable.getColumn? (ti : DBTable) (name : String) : Option DBColumn :=
  ti.columns.find? (fun c => c.name = name)

/-- Go `(*DBTable).GetColumn`. -/
def DBTable.GetColumn (ti : DBTable) (name : String) : Except String DBColumn :=
  match ti.getColumn? name with
  | some c => .ok c
  | none => .error ("column: '" ++ ti.name ++ "." ++ name ++ "' not found")

/-! ## qcode: enumerations (`qcode/qcode.go`) -/

/-- Go `qcode.QType`; the zero value is `QTUnknown`. -/
inductive QType where
  | QTUnknown
  | QTQuery
  | QTSubscription
  | QTMutation
  | QTInsert
  | QTUpdate
  | QTDelete
  | QTUpsert
deriving DecidableEq

/-- Go `qcode.SelType`. -/
inductive SelType where
  | SelTypeNone
  | SelTypeUnion
  | SelTypeMember
deriving DecidableEq

/-- Go `qcode.SkipType`. -/
inductive SkipType where
  | SkipTypeNone
  | SkipTypeUserNeeded
  | SkipTypeRemote
deriving DecidableEq

/-- Go `qcode.PagingType`; the zero value is `PTOffset`. -/
inductive PagingType where
  | PTOffset
  | PTForward
  | PTBackward
deriving DecidableEq

/-- Go `qcode.ExpOp`; the zero value is `OpNop`. -/
inductive ExpOp where
  | OpNop
  | OpAnd
  | OpOr
  | OpNot
  | OpEquals
  | OpNotEquals
  | OpGreaterOrEquals
  | OpLesserOrEquals
  | OpGreaterThan
  | OpLesserThan
  | OpIn
  | OpNotIn
  | OpLike
  | OpNotLike
  | OpILike
  | OpNotILike
  | OpSimilar
  | OpNotSimilar
  | OpRegex
  | OpNotRegex
  | OpIRegex
  | OpNotIRegex
  | OpContains
  | OpContainedIn
  | OpHasKey
  | OpHasKeyAny
  | OpHasKeyAll
  | OpIsNull
  | OpTsQuery
  | OpFalse
  | OpNotDistinct
  | OpDistinct
  | OpEqualsTrue
  | OpNotEqualsTrue
deriving DecidableEq

/-- Go `qcode.ValType` starts at `iota + 1`; `ValUnset` stands for the
Go zero value 0 that a fresh `Exp` carries before any assignment. -/
inductive ValType where
  | ValUnset
  | ValStr
  | ValNum
  | ValBool
  | ValList
  | ValVar
  | ValNone
  | ValRef
deriving DecidableEq

/-- Go `qcode.Order` starts at `iota + 1`; `OrderUnset` stands for the
Go zero value 0 (`sel.order` before `first`/`last` is seen). -/
inductive Order where
  | OrderUnset
  | OrderAsc
  | OrderDesc
  | OrderAscNullsFirst
  | OrderAscNullsLast
  | OrderDescNullsFirst
  | OrderDescNullsLast
deriving DecidableEq

/-- Go `qcode.Exp`.  A recursive struct (`Children []*Exp`), so it is an
inductive type here; the `childrenA` backing array is representation
only and is dropped. -/
inductive Exp where
  | mk (op : ExpOp) (table : String) (rels : List DBRel) (col : DBColumn)
      (ty : ValType) (val : String) (listType : ValType) (listVal : List String)
      (children : List Exp) (path : List String)

def Exp.op : Exp → ExpOp
  | .mk op _ _ _ _ _ _ _ _ _ => op

def Exp.table : Exp → String
  | .mk _ table _ _ _ _ _ _ _ _ => table

def Exp.col : Exp → DBColumn
  | .mk _ _ _ col _ _ _ _ _ _ => col

def Exp.ty : Exp → ValType
  | .mk _ _ _ _ ty _ _ _ _ _ => ty

def Exp.val : Exp → String
  | .mk _ _ _ _ _ val _ _ _ _ => val

def Exp.children : Exp → List Exp
  | .mk _ _ _ _ _ _ _ _ children _ => children

/-- Go `newExp` (zero-valued `Exp`). -/
def newExp : Exp :=
  .mk .OpNop "" [] {} .ValUnset "" .ValUnset [] [] []

/-- Go `newExpOp`. -/
def newExpOp (op : ExpOp) : Exp :=
  .mk op "" [] {} .ValUnset "" .ValUnset [] [] []

/-- Helper: a fresh `Exp` with op, value type, value (the common
construction pattern `ex := newExpOp(op); ex.Type = ty; ex.Val = v`). -/
def mkValExp (op : ExpOp) (ty : ValType) (val : String) : Exp :=
  .mk op "" [] {} ty val .ValUnset [] [] []

/-- Helper: the construction pattern of `addSeekPredicate` leaves
(`f.Type = ValRef; f.Table = "__cur"; f.Col = col; f.Val = v; f.Op = op`). -/
def mkCurExp (op : ExpOp) (col : DBColumn) (val : String) : Exp :=
  .mk op "__cur" [] col .ValRef val .ValUnset [] [] []

/-- Helper: an `Exp` with op and children (inner node). -/
def mkNodeExp (op : ExpOp) (children : List Exp) : Exp :=
  .mk op "" [] {} .ValUnset "" .ValUnset [] children []

/-- Go `qcode.Filter` is `struct{ *Exp }`; the nil pointer is `none`. -/
abbrev Filter := Option Exp

/-- Go `qcode.Arg` (the opaque carry-through value). -/
structure QArg where
  val : String := ""
deriving DecidableEq

/-- Go `qcode.OrderBy`. -/
structure OrderBy where
  col : DBColumn := {}
  order : Order := .OrderUnset
deriving DecidableEq

/-- Go `qcode.Paging`. -/
structure Paging where
  typ : PagingType := .PTOffset
  limitVar : String := ""
  limit : Int := 0
  offsetVar : String := ""
  offset : Int := 0
  cursor : Bool := false
  noLimit : Bool := false
deriving DecidableEq

/-- Go `qcode.Column` (a projected column). -/
structure Column where
  col : DBColumn := {}
  fieldName : String := ""
deriving DecidableEq

/-- Minimal image of the synthetic child `Select` that
`parseFuncExpression` builds for cross-table aggregates.  Go's
`Function.Sel` is a `*Select`, which would make `Select` and `Function`
mutually recursive; Lean structures cannot be mutually recursive, so the
subset of fields that `parseFuncExpression` actually sets is split out. -/
structure FnSel where
  parentID : Int := 0
  table : String := ""
  cols : List Column := []
  bcols : List Column := []
  rel : DBRel := {}
  joins : List DBRel := []

/-- Go `qcode.Function`. -/
structure Function where
  name : String := ""
  sel : Option FnSel := none
  col : DBColumn := {}
  fieldName : String := ""
  skip : Bool := false

/-- Go `qcode.Select`.  `Type` is renamed `typ`; the unexported Go
fields `order` and `through` are kept. -/
structure Select where
  id : Int := 0
  parentID : Int := 0
  typ : SelType := .SelTypeNone
  singular : Bool := false
  typename : Bool := false
  table : String := ""
  fieldName : String := ""
  cols : List Column := []
  bcols : List Column := []
  argMap : List (String × QArg) := []
  funcs : List Function := []
  whereE : Filter := none
  orderBy : List OrderBy := []
  groupCols : Bool := false
  distinctOn : List DBColumn := []
  paging : Paging := {}
  children : List Int := []
  skipRender : SkipType := .SkipTypeNone
  ti : DBTable := {}
  rel : DBRel := {}
  joins : List DBRel := []
  order : Order := .OrderUnset
  through : String := ""

/-- Go `qcode.QCode`.  `Schema`, `Mutates`, `MUnions` and the backing
array `rootsA` are not needed by any compiled-in behaviour modelled
here and are dropped; `Vars` is the opaque name-to-raw-JSON map. -/
structure QCode where
  typ : QType := .QTUnknown
  styp : QType := .QTUnknown
  actionVar : String := ""
  selects : List Select := []
  vars : List (String × String) := []
  roots : List Int := []
  remotes : Int := 0

/-! ## graph: the external parser's output (`§6 Parser contract`) -/

/-- Go `graph.ParserType` for operations (`OpQuery | OpSub | OpMutate`). -/
inductive OpType where
  | OpQuery
  | OpSub
  | OpMutate
deriving DecidableEq

/-- Go `graph` field kinds (`FieldUnion | FieldMember | FieldKeyword`
plus the plain default). -/
inductive FieldType where
  | FieldPlain
  | FieldUnion
  | FieldMember
  | FieldKeyword
deriving DecidableEq

/-- Go `graph` argument-value node kinds. -/
inductive NodeType where
  | NodeStr
  | NodeNum
  | NodeBool
  | NodeList
  | NodeObj
  | NodeVar
deriving DecidableEq

/-- Go `graph.Node`: a parsed argument value.  The Go struct links
children to parents by pointer; here a node owns its children and the
(rarely used) parent name chain is reconstructed by the caller. -/
inductive Node where
  | mk (typ : NodeType) (name : String) (val : String) (children : List Node)

def Node.typ : Node → NodeType
  | .mk typ _ _ _ => typ

def Node.name : Node → String
  | .mk _ name _ _ => name

def Node.val : Node → String
  | .mk _ _ val _ => val

def Node.children : Node → List Node
  | .mk _ _ _ children => children

/-- Go `graph.Arg`. -/
structure Arg where
  name : String := ""
  val : Node := .mk .NodeStr "" "" []

/-- Go `graph.Directive`. -/
structure Directive where
  name : String := ""
  args : List Arg := []

/-- Go `graph.Field` (§6: dense id, parent id `-1` for roots, name,
alias, kind, arguments, directives).  Sub-fields are the fields whose
`parentID` equals this field's id. -/
structure Field where
  id : Nat := 0
  parentID : Int := 0
  name : String := ""
  aliasName : String := ""
  typ : FieldType := .FieldPlain
  args : List Arg := []
  directives : List Directive := []

/-- Go `graph.Operation`. -/
structure Operation where
  typ : OpType := .OpQuery
  fields : List Field := []

/-- Sub-fields of `f` inside `op`, in declared order. -/
def Operation.childFields (op : Operation) (f : Field) : List Field :=
  op.fields.filter (fun g => g.parentID = (f.id : Int))

/-! ## sdata: the schema graph (`sdata/schema.go`) -/

/-- One inserted relationship edge.  Go stores edges in a
`gonum` weighted directed multigraph (`addToGraph`, in a file outside
this repository snapshot); for the properties proved here only the
record of which edge was inserted with which `RelType` matters. -/
structure TEdge where
  lt : DBTable := {}
  lc : DBColumn := {}
  rt : DBTable := {}
  rc : DBColumn := {}
  relT : RelType := .RelNone
deriving DecidableEq

/-- Go `sdata.TPath`: one step of a found path.  `sdata.PathToRel`
(outside this snapshot) converts a `TPath` to a `DBRel`; here a path
step is carried directly as the `DBRel` it converts to, making
`PathToRel` the identity. -/
abbrev TPath := DBRel

/-- Go `sdata.PathToRel`. -/
def PathToRel (p : TPath) : DBRel := p

/-- Go `sdata.DBSchema`.  `tindex` is the `schema:name` table index;
`fm` keeps the registered (unary) function names; `findPathFn` stands
for the weighted-shortest-path search `FindPath` (implemented outside
this snapshot — §4.1: returns the ordered edge list, or fails with
"no relationship found" when unreachable). -/
structure DBSchema where
  typ : String := ""
  tables : List DBTable := []
  tindex : List (String × Nat) := []
  edges : List TEdge := []
  fm : List String := []
  findPathFn : String → String → Except String (List TPath) := fun _ _ => .ok []

/-- Go `(*DBSchema).DBType`. -/
def DBSchema.DBType (s : DBSchema) : String := s.typ

/-- Go `(*DBSchema).GetFunctions` (keys of the unary-function map). -/
def DBSchema.GetFunctions (s : DBSchema) : List String := s.fm

/-- Go `(*DBSchema).FindPath`. -/
def DBSchema.FindPath (s : DBSchema) (child parent : String) :
    Except String (List TPath) :=
  s.findPathFn child parent

/-- Modelled from the spec: `Find(schema, name) → Table` (§4.1 Lookup
API), the name-resolution of a table in a schema; `sdata`'s
implementation (with alias handling) is outside this snapshot.  The
table whose schema and name match is returned, else an error. -/
def DBSchema.Find (s : DBSchema) (schema name : String) :
    Except String DBTable :=
  match s.tables.find? (fun t => t.schema = schema && t.name = name) with
  | some t => .ok t
  | none => .error ("table not found: " ++ schema ++ "." ++ name)

/-- Modelled from the spec: `addToGraph` (§4.1 Construction (d)) inserts
the classified edge into the relationship graph; the reverse edge it
also inserts carries the opposite relationship type and is not needed
for the properties proved here, so only the forward edge is recorded. -/
def DBSchema.addToGraph (s : DBSchema) (lt : DBTable) (lc : DBColumn)
    (rt : DBTable) (rc : DBColumn) (relT : RelType) : Except String DBSchema :=
  .ok { s with edges := s.edges ++ [{ lt := lt, lc := lc, rt := rt, rc := rc, relT := relT }] }

/-- Go `(*DBSchema).addColumnRels` — the per-column foreign-key walk of
`sdata/schema.go:196` as a recursion over the column list: fill the
default schema, resolve the target table through `tindex` and the
target column, classify the relationship (`recursive` / `one-to-one` /
`one-to-many`) and insert the edge. -/
def DBSchema.addColumnRelsLoop (t : DBTable) :
    DBSchema → List DBColumn → Except String DBSchema
  | s, [] => .ok s
  | s, c0 :: rest =>
    if c0.fKeyTable = "" then
      s.addColumnRelsLoop t rest
    else
      let c := if c0.fKeySchema = "" then { c0 with fKeySchema := t.schema } else c0
      match s.tindex.find? (fun p => p.1 = c.fKeySchema ++ ":" ++ c.fKeyTable) with
      | none =>
        .error ("foreign key table not found: " ++ c.fKeySchema ++ "." ++ c.fKeyTable)
      | some v =>
        match s.tables[v.2]? with
        | none => .error "panic: index out of range in s.tables"
        | some ft =>
          if c.fKeyCol = "" then
            s.addColumnRelsLoop t rest
          else
            match ft.getColumn? c.fKeyCol with
            | none =>
              .error ("foreign key column not found: " ++ c.fKeyTable ++ "." ++ c.fKeyCol)
            | some fc =>
              let rt : RelType :=
                if t.name = c.fKeyTable then .RelRecursive
                else if fc.uniqueKey then .RelOneToOne
                else .RelOneToMany
              match s.addToGraph t c ft fc rt with
              | .ok s2 => s2.addColumnRelsLoop t rest
              | .error e => .error e

/-- Go `(*DBSchema).addColumnRels` (`sdata/schema.go:196`). -/
def DBSchema.addColumnRels (s : DBSchema) (t : DBTable) : Except String DBSchema :=
  s.addColumnRelsLoop t t.columns

/-! ## qcode: compiler configuration and the role registry -/

/-- Modelled from the spec: one `(role, table, operation)` access
policy of the Role/Trust Registry (§4.3): `block` bit, optional
baseline filter with its memoised needs-user flag, optional row-limit
override, skip rule.  The Go `trval` lives in the configuration code
outside this snapshot. -/
structure TRPolicy where
  block : Bool := false
  filter : Option Exp := none
  userNeeded : Bool := false
  limit : Int := 0
  skip : Bool := false

/-- Modelled from the spec: the per-role, per-table policy bundle with
one sub-policy per operation family (§4.3). -/
structure trval where
  query : TRPolicy := {}
  insert : TRPolicy := {}
  update : TRPolicy := {}
  upsert : TRPolicy := {}
  delete : TRPolicy := {}

/-- Modelled from the spec: selects the operation family's sub-policy;
query and subscription share the query policy. -/
def trval.policyFor (tr : trval) (qt : QType) : TRPolicy :=
  match qt with
  | .QTInsert => tr.insert
  | .QTUpdate => tr.update
  | .QTUpsert => tr.upsert
  | .QTDelete => tr.delete
  | _ => tr.query

/-- Modelled from the spec: `isSkipped(qtype)` (§4.3). -/
def trval.isSkipped (tr : trval) (qt : QType) : Bool :=
  (tr.policyFor qt).skip

/-- Modelled from the spec: `isBlocked(stype, table)` fails the compile
when the role is forbidden (§4.3, errors §6: "table 'NAME' blocked"). -/
def trval.isBlocked (tr : trval) (qt : QType) (name : String) : Except String Unit :=
  if (tr.policyFor qt).block then .error ("table '" ++ name ++ "' blocked")
  else .ok ()

/-- Modelled from the spec: `filter(stype)` returns the baseline filter
(nil when none is configured) and its needs-user flag (§4.3). -/
def trval.filter (tr : trval) (qt : QType) : Option (Exp × Bool) :=
  ((tr.policyFor qt).filter).map (fun f => (f, (tr.policyFor qt).userNeeded))

/-- Modelled from the spec: the row-limit override (0 when absent). -/
def trval.limit (tr : trval) (qt : QType) : Int :=
  (tr.policyFor qt).limit

/-- Go `qcode.Config`.  `defTrv` is the default role policy primed by
`NewCompiler`; `singularizeFn` stands for the external inflection
library (`flect.Singularize`). -/
structure Config where
  dbschema : String := "public"
  defaultLimit : Int := 0
  defaultBlock : Bool := false
  enableInflection : Bool := false
  singularizeFn : String → String := fun s => s
  defTrv : trval := {}

/-- Go `qcode.Compiler`.  The role registry `tr` is keyed by
(role, table name). -/
structure Compiler where
  c : Config := {}
  s : DBSchema := {}
  tr : List ((String × String) × trval) := []

/-- Modelled from the spec: `(role, field.name)` policy lookup (§4.4
step "Access policy"); missing entries fall back to the default
policy. -/
def Compiler.getRole (co : Compiler) (role name : String) : trval :=
  match co.tr.find? (fun p => p.1.1 = role && p.1.2 = name) with
  | some p => p.2
  | none => co.c.defTrv

/-! ## qcode: small shared helpers (`qcode/qcode.go`) -/

/-- Go `argErr`. -/
def argErr (name ty : String) : String :=
  "value for argument '" ++ name ++ "' must be a " ++ ty

/-- Go `dbArgErr`. -/
def dbArgErr (name ty db : String) : String :=
  db ++ ": value for argument '" ++ name ++ "' must be a " ++ ty

/-- Go `(*Select).addArg` (`sel.ArgMap[arg.Name] = Arg{Val: arg.Val.Val}`). -/
def Select.addArg (sel : Select) (arg : Arg) : Select :=
  { sel with argMap := (sel.argMap.filter (fun p => p.1 ≠ arg.name)) ++ [(arg.name, { val := arg.val.val })] }

/-- ArgMap lookup (Go `sel.ArgMap["find"]`). -/
def Select.argMapGet (sel : Select) (name : String) : Option QArg :=
  (sel.argMap.find? (fun p => p.1 = name)).map (fun p => p.2)

/-- Character-list prefix test: a reduction-friendly model of Go
`strings.HasPrefix` (Lean's `String.startsWith` is byte-position based
and does not reduce definitionally, which the concrete witnesses below
need). -/
def charsHavePre : List Char → List Char → Bool
  | [], _ => true
  | _ :: _, [] => false
  | p :: ps, c :: cs => p = c && charsHavePre ps cs

/-- Go `strings.HasPrefix(s, pre)`. -/
def strHasPre (s pre : String) : Bool := charsHavePre pre.data s.data

/-- Go `strings.HasSuffix(s, suf)`. -/
def strHasSuf (s suf : String) : Bool := charsHavePre suf.data.reverse s.data.reverse

/-- Go `strings.Split(s, "__")` on the character list (`"__"` is the
only separator the source splits on); the leftmost separator wins, as
in Go. -/
def splitUUChars : List Char → List (List Char)
  | [] => [[]]
  | '_' :: '_' :: rest => [] :: splitUUChars rest
  | c :: rest =>
    match splitUUChars rest with
    | [] => [[c]]
    | seg :: segs => (c :: seg) :: segs

/-- Go `strings.Split(s, "__")`. -/
def strSplitUU (s : String) : List String :=
  (splitUUChars s.data).map List.asString

/-- Decimal digit value of a character. -/
def digitVal (c : Char) : Option Nat :=
  if 48 ≤ c.toNat ∧ c.toNat ≤ 57 then some (c.toNat - 48) else none

/-- Accumulating decimal parse over the character list. -/
def parseNatChars : List Char → Nat → Option Nat
  | [], acc => some acc
  | c :: cs, acc =>
    match digitVal c with
    | some d => parseNatChars cs (acc * 10 + d)
    | none => none

/-- Go `strconv.ParseInt(s, 10, 32)`: optional sign, decimal digits,
and an int32 range check. -/
def parseInt32 (s : String) : Except String Int :=
  let signed : Option Int :=
    match s.data with
    | [] => none
    | '-' :: rest =>
      if rest = [] then none else (parseNatChars rest 0).map (fun n => -(n : Int))
    | '+' :: rest =>
      if rest = [] then none else (parseNatChars rest 0).map (fun n => (n : Int))
    | l => (parseNatChars l 0).map (fun n => (n : Int))
  match signed with
  | none => .error ("strconv.ParseInt: parsing \x22" ++ s ++ "\x22: invalid syntax")
  | some n =>
      if -2147483648 ≤ n ∧ n < 2147483648 then .ok n
      else .error ("strconv.ParseInt: parsing \x22" ++ s ++ "\x22: value out of range")

/-- Go `setFilter` (`qcode/qcode.go:1080`): AND the new filter onto an
existing `Where`, keeping the existing expression as the second child;
with no existing expression the filter is installed directly.  The Go
parameter is a possibly-nil pointer; every call site modelled here
passes a non-nil expression, so the argument is an `Exp`. -/
def setFilter (w : Filter) (fil : Exp) : Exp :=
  match w with
  | some ow => mkNodeExp .OpAnd [fil, ow]
  | none => fil

/-- Go `addFilters` (`qcode/qcode.go:598`): apply the role policy's
baseline filter to the select's `Where`. -/
def addFilters (qc : QCode) (w : Filter) (trv : trval) : Filter × Bool :=
  match trv.filter qc.styp with
  | some (fil, userNeeded) =>
      match fil.op with
      | .OpNop => (w, userNeeded)
      | .OpFalse => (some fil, userNeeded)
      | _ => (some (setFilter w fil), userNeeded)
  | none => (w, false)

/-! ## qcode: function/column classification (`qcode/fn.go`) -/

/-- Outcome of running a Go function: a value, a returned `error`, or a
runtime panic (used where the source can index out of bounds). -/
inductive GoResult (α : Type) where
  | ok (a : α)
  | err (msg : String)
  | panic (msg : String)
deriving DecidableEq

/-- Modelled from the spec: `(*Select).addCol` (outside this snapshot)
appends a projected column, to `BCols` (base columns needed for joins
but not returned, §3) when the flag is set, else to `Cols`. -/
def FnSel.addCol (sel : FnSel) (col : Column) (base : Bool) : FnSel :=
  if base then { sel with bcols := sel.bcols ++ [col] }
  else { sel with cols := sel.cols ++ [col] }

/-- Go `(*Compiler).funcPrefixLen` (`qcode/fn.go:51`).  The switch is
evaluated in source order (so `stddev_` shadows `stddev_pop_` /
`stddev_samp_`); the registered-function scan iterates a Go map, whose
order is unspecified — modelled as the registration list order. -/
def Compiler.funcPrefixLen (co : Compiler) (col : String) : Nat :=
  if strHasPre col "avg_" then 4
  else if strHasPre col "count_" then 6
  else if strHasPre col "max_" then 4
  else if strHasPre col "min_" then 4
  else if strHasPre col "sum_" then 4
  else if strHasPre col "stddev_" then 7
  else if strHasPre col "stddev_pop_" then 11
  else if strHasPre col "stddev_samp_" then 12
  else if strHasPre col "variance_" then 9
  else if strHasPre col "var_pop_" then 8
  else if strHasPre col "var_samp_" then 9
  else
    let fnLen := col.length
    match co.s.GetFunctions.find? (fun k =>
        decide (k.length < fnLen) && (k.take 1 = col.take 1)
          && strHasPre col k && ((col.drop k.length).take 1 = "_")) with
    | some k => k.length + 1
    | none => 0

/-- Go `(*Compiler).isFunction` (`qcode/fn.go:9`).  The Go function
mutates `sel` (the `__typename` marker), so the updated select is
returned alongside `(Function, fnExp, agg)`. -/
def Compiler.isFunction (co : Compiler) (sel : Select) (fname : String) :
    Except String (Select × Function × String × Bool) :=
  let fn : Function := { fieldName := fname }
  if fname = "search_rank" then
    match sel.argMapGet "search" with
    | none => .error ("no search defined: " ++ fname)
    | some _ => .ok (sel, { fn with name := "search_rank" }, "", false)
  else if strHasPre fname "search_headline_" then
    match sel.argMapGet "search" with
    | none => .error ("no search defined: " ++ fname)
    | some _ => .ok (sel, { fn with name := "search_headline" }, fname.drop 16, false)
  else if fname = "__typename" then
    .ok ({ sel with typename := true }, { fn with skip := true }, "", false)
  else if strHasSuf fname "_cursor" then
    .ok (sel, { fn with skip := true }, "", false)
  else
    let n := co.funcPrefixLen fname
    if n ≠ 0 then
      .ok (sel, { fn with name := fname.take (n - 1) }, fname.drop n, true)
    else
      .ok (sel, fn, "", false)

/-- Go `(*Compiler).parseFuncExpression` (`qcode/fn.go:88`).  For a
cross-table aggregate (`fnExp` of the form `_table[__column]`) the
result of `FindPath` is stored into `paths` and its error into `err`,
but `err` is not checked before `paths[0]` is read — when `FindPath`
fails (so `paths` is empty) the index access panics instead of
returning the error. -/
def Compiler.parseFuncExpression (co : Compiler) (sel : Select) (fn : Function)
    (fnExp : String) : GoResult Function :=
  if strHasPre fnExp "_" then
    let parts := strSplitUU (fnExp.drop 1)
    match co.s.Find co.c.dbschema (parts.headD "") with
    | .error e => .err e
    | .ok table =>
      let columnE : Except String DBColumn :=
        if parts.length = 1 then .ok table.primaryCol
        else table.GetColumn (parts.getD 1 "")
      match columnE with
      | .error e => .err e
      | .ok column =>
        let fnSel := FnSel.addCol { parentID := sel.id, table := table.name }
          { col := column } true
        let paths : List TPath :=
          match co.s.FindPath table.name sel.table with
          | .ok ps => ps
          | .error _ => []
        match paths with
        | [] => .panic "runtime error: index out of range [0] with length 0"
        | p :: rest =>
          let fnSel' := { fnSel with rel := PathToRel p, joins := rest.map PathToRel }
          .ok { fn with sel := some fnSel' }
  else
    match sel.ti.GetColumn fnExp with
    | .ok c => .ok { fn with col := c }
    | .error e => .err e

/-! ## qcode: directives (`qcode/qcode.go:613`) -/

/-- Go `(*Compiler).compileDirectiveSkip`. -/
def Compiler.compileDirectiveSkip (sel : Select) (d : Directive) : Except String Select :=
  match d.args with
  | [] => .error "@skip: required argument 'if' missing"
  | arg :: _ =>
    if arg.name ≠ "if" then .error "@skip: required argument 'if' missing"
    else if arg.val.typ ≠ .NodeVar then .error (argErr "if" "variable")
    else
      let ex := mkValExp .OpNotEqualsTrue .ValVar arg.val.val
      .ok { sel with whereE := some (setFilter sel.whereE ex) }

/-- Go `(*Compiler).compileDirectiveInclude`. -/
def Compiler.compileDirectiveInclude (sel : Select) (d : Directive) : Except String Select :=
  match d.args with
  | [] => .error "@include: required argument 'if' missing"
  | arg :: _ =>
    if arg.name ≠ "if" then .error "@include: required argument 'if' missing"
    else if arg.val.typ ≠ .NodeVar then .error (argErr "if" "variable")
    else
      let ex := mkValExp .OpEqualsTrue .ValVar arg.val.val
      .ok { sel with whereE := some (setFilter sel.whereE ex) }

/-- Go `(*Compiler).compileDirectiveNotRelated`. -/
def Compiler.compileDirectiveNotRelated (sel : Select) (_d : Directive) : Except String Select :=
  .ok { sel with rel := { sel.rel with typ := .RelSkip } }

/-- Go `(*Compiler).compileDirectiveThrough`. -/
def Compiler.compileDirectiveThrough (sel : Select) (d : Directive) : Except String Select :=
  match d.args with
  | [] => .error "@through: required argument 'table' missing"
  | arg :: _ =>
    if arg.name ≠ "table" then .error "@through: required argument 'table' missing"
    else if arg.val.typ ≠ .NodeStr then .error (argErr "table" "string")
    else .ok { sel with through := arg.val.val }

/-- The `switch d.Name` body of `compileDirectives` for one directive
(unknown names are ignored, `@object` forces `singular`). -/
def Compiler.compileDirective1 (sel : Select) (d : Directive) : Except String Select :=
  match d.name with
  | "skip" => Compiler.compileDirectiveSkip sel d
  | "include" => Compiler.compileDirectiveInclude sel d
  | "not_related" => Compiler.compileDirectiveNotRelated sel d
  | "through" => Compiler.compileDirectiveThrough sel d
  | "object" => .ok { sel with singular := true }
  | _ => .ok sel

/-- Go `(*Compiler).compileDirectives` (the dispatch loop). -/
def Compiler.compileDirectives (co : Compiler) (sel : Select) :
    List Directive → Except String Select
  | [] => .ok sel
  | d :: rest =>
    match Compiler.compileDirective1 sel d with
    | .error e => .error e
    | .ok sel' => co.compileDirectives sel' rest

/-! ## qcode: arguments (`qcode/qcode.go:644`) -/

/-- Go `(*Compiler).compileArgID` (`qcode/qcode.go:814`): root-only;
builds `op_equals(primary_col, value)` and installs it as the select's
whole `Where` (`sel.Where.Exp = ex`, a direct assignment), forcing
`singular`. -/
def Compiler.compileArgID (sel : Select) (arg : Arg) : Except String Select :=
  let node := arg.val
  if sel.parentID ≠ -1 then
    .error "argument 'id' can only be specified at the query root"
  else if node.typ ≠ .NodeNum ∧ node.typ ≠ .NodeStr ∧ node.typ ≠ .NodeVar then
    .error (argErr "id" "number, string or variable")
  else if sel.ti.primaryCol.name = "" then
    .error ("no primary key column defined for " ++ sel.table)
  else do
    let ex : Exp ←
      match node.typ with
      | .NodeNum => do
          let _ ← parseInt32 node.val
          pure (.mk .OpEquals "" [] sel.ti.primaryCol .ValNum node.val .ValUnset [] [] [])
      | .NodeStr =>
          pure (.mk .OpEquals "" [] sel.ti.primaryCol .ValStr node.val .ValUnset [] [] [])
      | _ =>
          pure (.mk .OpEquals "" [] sel.ti.primaryCol .ValVar node.val .ValUnset [] [] [])
    .ok { sel with whereE := some ex, singular := true }

/-- Go `(*Compiler).compileArgSearch` (`qcode/qcode.go:857`). -/
def Compiler.compileArgSearch (co : Compiler) (sel : Select) (arg : Arg) : Except String Select :=
  if sel.ti.fullText.length = 0 then
    if co.s.DBType = "mysql" then
      .error ("no fulltext indexes defined for table '" ++ sel.table ++ "'")
    else
      .error ("no tsvector column defined on table '" ++ sel.table ++ "'")
  else if arg.val.typ ≠ .NodeVar then
    .error (argErr "search" "variable")
  else
    let ex := mkValExp .OpTsQuery .ValVar arg.val.val
    let sel₁ := sel.addArg arg
    .ok { sel₁ with whereE := some (setFilter sel₁.whereE ex) }

/-- Modelled from the spec: value classification of the Expression
Builder (§4.2) — scalar literal to `ValStr`/`ValNum`/`ValBool`, list to
`ValList`, variable reference to `ValVar`. -/
def nodeValType : NodeType → ValType
  | .NodeStr => .ValStr
  | .NodeNum => .ValNum
  | .NodeBool => .ValBool
  | .NodeList => .ValList
  | .NodeVar => .ValVar
  | .NodeObj => .ValNone

/-- Modelled from the spec: the operator wire names of §4.2 mapped to
internal ops. -/
def opFromWireName : String → Option ExpOp
  | "_eq" => some .OpEquals
  | "_neq" => some .OpNotEquals
  | "_gt" => some .OpGreaterThan
  | "_lt" => some .OpLesserThan
  | "_gte" => some .OpGreaterOrEquals
  | "_lte" => some .OpLesserOrEquals
  | "_in" => some .OpIn
  | "_nin" => some .OpNotIn
  | "_like" => some .OpLike
  | "_nlike" => some .OpNotLike
  | "_ilike" => some .OpILike
  | "_nilike" => some .OpNotILike
  | "_similar" => some .OpSimilar
  | "_nsimilar" => some .OpNotSimilar
  | "_regex" => some .OpRegex
  | "_nregex" => some .OpNotRegex
  | "_iregex" => some .OpIRegex
  | "_niregex" => some .OpNotIRegex
  | "_contains" => some .OpContains
  | "_contained_in" => some .OpContainedIn
  | "_has_key" => some .OpHasKey
  | "_has_key_any" => some .OpHasKeyAny
  | "_has_key_all" => some .OpHasKeyAll
  | "_is_null" => some .OpIsNull
  | "_ts_query" => some .OpTsQuery
  | "_and" => some .OpAnd
  | "_or" => some .OpOr
  | "_not" => some .OpNot
  | _ => none

mutual

/-- Modelled from the spec: the Expression Builder traversal (§4.2).
An object key that names an operator builds a leaf on the contextual
column; `_and`/`_or`/`_not` build inner nodes over their children; any
other key resolves as a column of the contextual table and descends.
A variable value whose name starts with `user_` sets the needs-user
flag.  (The Go `compileArgObj`/`compileArgNode` live in expression-
builder code outside this snapshot.) -/
def argNodeToExp (ti : DBTable) (col : DBColumn) : Node → Except String (Exp × Bool)
  | .mk t nm v ch =>
    match opFromWireName nm with
    | some .OpAnd => do
        let ces ← argNodesToExp ti col ch
        .ok (mkNodeExp .OpAnd (ces.map Prod.fst), ces.any Prod.snd)
    | some .OpOr => do
        let ces ← argNodesToExp ti col ch
        .ok (mkNodeExp .OpOr (ces.map Prod.fst), ces.any Prod.snd)
    | some .OpNot => do
        let ces ← argNodesToExp ti col ch
        .ok (mkNodeExp .OpNot (ces.map Prod.fst), ces.any Prod.snd)
    | some op =>
        let nu := t = .NodeVar ∧ strHasPre v "user_"
        .ok (.mk op "" [] col (nodeValType t) v
              (if t = .NodeList then .ValStr else .ValUnset)
              (if t = .NodeList then ch.map Node.val else []) [] [], nu)
    | none => do
        match ti.getColumn? nm with
        | some c =>
            match ch with
            | [inner] => argNodeToExp ti c inner
            | _ => .error ("expecting an operator for column " ++ nm)
        | none => .error ("column: '" ++ ti.name ++ "." ++ nm ++ "' not found")

/-- Modelled from the spec: the Expression Builder over a list of
sibling nodes. -/
def argNodesToExp (ti : DBTable) (col : DBColumn) :
    List Node → Except String (List (Exp × Bool))
  | [] => .ok []
  | n :: rest => do
    let e ← argNodeToExp ti col n
    let es ← argNodesToExp ti col rest
    .ok (e :: es)
end

/-- Modelled from the spec: `compileArgObj`, the Expression Builder
entry point for the `where` argument (§4.2): translates the argument
object into an expression tree plus the needs-user flag; sibling keys
conjoin. -/
def Compiler.compileArgObj (ti : DBTable) (arg : Arg) : Except String (Exp × Bool) :=
  if arg.val.typ ≠ .NodeObj then .error "expecting an object"
  else do
    let ces ← argNodesToExp ti {} arg.val.children
    match ces with
    | [] => .ok (newExp, false)
    | [e] => .ok e
    | _ => .ok (mkNodeExp .OpAnd (ces.map Prod.fst), ces.any Prod.snd)

/-- Go `(*Compiler).compileArgWhere` (`qcode/qcode.go:880`). -/
def Compiler.compileArgWhere (_co : Compiler) (ti : DBTable) (sel : Select) (arg : Arg)
    (role : String) : Except String Select := do
  let (ex, nu) ← Compiler.compileArgObj ti arg
  let sel₁ :=
    if nu ∧ role = "anon" then { sel with skipRender := .SkipTypeUserNeeded } else sel
  .ok { sel₁ with whereE := some (setFilter sel₁.whereE ex) }

/-- Go `buildPath` (`qcode/qcode.go:1159`). -/
def buildPath : List String → String
  | [] => ""
  | x :: rest => rest.foldl (fun acc s => acc ++ "." ++ s) x

/-- Go `setOrderByColName` (`qcode/qcode.go:1097`): collect the
non-empty names up the node's parent chain and resolve the dotted path
as a column.  The nodes reaching this function are the direct children
of the `order_by` argument object, whose ancestors carry empty names,
so the chain is the node's own name. -/
def setOrderByColName (ti : DBTable) (ob : OrderBy) (node : Node) :
    Except String OrderBy :=
  let list : List String := if node.name ≠ "" then [node.name] else []
  match list with
  | [] => .ok ob
  | _ =>
    match ti.GetColumn (buildPath list) with
    | .ok col => .ok { ob with col := col }
    | .error e => .error e

/-- Go `switch node.Val` direction parsing in `compileArgOrderBy`. -/
def orderFromString : String → Option Order
  | "asc" => some .OrderAsc
  | "desc" => some .OrderDesc
  | "asc_nulls_first" => some .OrderAscNullsFirst
  | "desc_nulls_first" => some .OrderDescNullsFirst
  | "asc_nulls_last" => some .OrderAscNullsLast
  | "desc_nulls_last" => some .OrderDescNullsLast
  | _ => none

/-- One node of the `compileArgOrderBy` loop body: the node-type
check, the direction parse, and the column resolution. -/
def parseOrderByNode (ti : DBTable) (node : Node) : Except String OrderBy :=
  if node.typ ≠ .NodeStr ∧ node.typ ≠ .NodeVar then
    .error "expecting a string or variable"
  else
    match orderFromString node.val with
    | none =>
      .error "valid values include asc, desc, asc_nulls_first and desc_nulls_first"
    | some ord => setOrderByColName ti { order := ord } node

/-- The stack-driven loop of `compileArgOrderBy` (`qcode/qcode.go:918`):
pop nodes, parse each, reject a column already present in `cm` (the
entries that existed before this argument), and accumulate `obList`. -/
def orderByLoop (ti : DBTable) (cm : List String) :
    List Node → List OrderBy → Except String (List OrderBy)
  | [], obList => .ok obList
  | node :: rest, obList =>
    match parseOrderByNode ti node with
    | .error e => .error e
    | .ok ob =>
      if cm.contains ob.col.name then
        .error ("duplicate column in order by: " ++ ob.col.name)
      else
        orderByLoop ti cm rest (obList ++ [ob])

/-- Go `(*Compiler).compileArgOrderBy` (`qcode/qcode.go:896`): build
`cm` from the order-by entries already present, push the argument
object's children onto a stack (so they pop in reverse declaration
order), run the loop, then append `obList` back to front. -/
def Compiler.compileArgOrderBy (sel : Select) (arg : Arg) : Except String Select :=
  if arg.val.typ ≠ .NodeObj then
    .error "expecting an object"
  else
    let cm : List String :=
      if sel.orderBy.length ≠ 0 then sel.orderBy.map (fun ob => ob.col.name) else []
    let st := arg.val.children.reverse
    match orderByLoop sel.ti cm st [] with
    | .error e => .error e
    | .ok obList => .ok { sel with orderBy := sel.orderBy ++ obList.reverse }

/-- One distinct-on column of `compileArgDistinctOn`
(`qcode/qcode.go:969`): resolve it and fold it into `OrderBy` (the
MySQL dialect) or `DistinctOn`. -/
def Compiler.distinctOnAdd (co : Compiler) (s : Select) (cname : String) :
    Except String Select :=
  match s.ti.GetColumn cname with
  | .ok col =>
    if co.s.DBType = "mysql" then
      .ok { s with orderBy := s.orderBy ++ [{ order := .OrderAsc, col := col }] }
    else
      .ok { s with distinctOn := s.distinctOn ++ [col] }
  | .error e => .error e

/-- The loop over the list node's children in `compileArgDistinctOn`. -/
def Compiler.distinctOnLoop (co : Compiler) : List Node → Select → Except String Select
  | [], s => .ok s
  | cn :: rest, s =>
    match co.distinctOnAdd s cn.val with
    | .ok s' => co.distinctOnLoop rest s'
    | .error e => .error e

/-- Go `(*Compiler).compileArgDistinctOn` (`qcode/qcode.go:969`). -/
def Compiler.compileArgDistinctOn (co : Compiler) (sel : Select) (arg : Arg) :
    Except String Select :=
  let node := arg.val
  if node.typ ≠ .NodeList ∧ node.typ ≠ .NodeStr then
    .error "expecting a list of strings or just a string"
  else
    match (if node.typ = .NodeStr then co.distinctOnAdd sel node.val else .ok sel) with
    | .error e => .error e
    | .ok sel₁ => co.distinctOnLoop node.children sel₁

/-- Go `(*Compiler).compileArgLimit` (`qcode/qcode.go:1005`). -/
def Compiler.compileArgLimit (co : Compiler) (sel : Select) (arg : Arg) :
    Except String Select :=
  let node := arg.val
  if node.typ ≠ .NodeNum ∧ node.typ ≠ .NodeVar then
    .error (argErr "limit" "number or variable")
  else if node.typ = .NodeNum then
    match parseInt32 node.val with
    | .ok n => .ok { sel with paging := { sel.paging with limit := n } }
    | .error e => .error e
  else if co.s.DBType = "mysql" then
    .error (dbArgErr "limit" "number" "mysql")
  else
    .ok { sel with paging := { sel.paging with limitVar := node.val } }

/-- Go `(*Compiler).compileArgOffset` (`qcode/qcode.go:1029`); note the
MySQL error names argument "limit", as in the source. -/
def Compiler.compileArgOffset (co : Compiler) (sel : Select) (arg : Arg) :
    Except String Select :=
  let node := arg.val
  if node.typ ≠ .NodeNum ∧ node.typ ≠ .NodeVar then
    .error (argErr "offset" "number or variable")
  else if node.typ = .NodeNum then
    match parseInt32 node.val with
    | .ok n => .ok { sel with paging := { sel.paging with offset := n } }
    | .error e => .error e
  else if co.s.DBType = "mysql" then
    .error (dbArgErr "limit" "number" "mysql")
  else
    .ok { sel with paging := { sel.paging with offsetVar := node.val } }

/-- Go `(*Compiler).compileArgFirstLast` (`qcode/qcode.go:1053`). -/
def Compiler.compileArgFirstLast (co : Compiler) (sel : Select) (arg : Arg)
    (order : Order) : Except String Select := do
  let sel₁ ← co.compileArgLimit sel arg
  let sel₂ :=
    if ¬ sel₁.singular then { sel₁ with paging := { sel₁.paging with cursor := true } }
    else sel₁
  .ok { sel₂ with order := order }

/-- Go `(*Compiler).compileArgAfterBefore` (`qcode/qcode.go:1066`). -/
def Compiler.compileArgAfterBefore (sel : Select) (arg : Arg) (pt : PagingType) :
    Except String Select :=
  let node := arg.val
  if node.typ ≠ .NodeVar ∨ node.val ≠ "cursor" then
    .error ("value for argument '" ++ arg.name ++ "' must be a variable named $cursor")
  else
    let sel₁ := { sel with paging := { sel.paging with typ := pt } }
    if ¬ sel₁.singular then
      .ok { sel₁ with paging := { sel₁.paging with cursor := true } }
    else
      .ok sel₁

/-- Go `(*Compiler).compileArgFind` (`qcode/qcode.go:802`). -/
def Compiler.compileArgFind (sel : Select) (arg : Arg) : Except String Select :=
  if sel.rel.typ ≠ .RelRecursive then
    .error ("find: selector '" ++ sel.fieldName ++ "' is not recursive")
  else if arg.val.val ≠ "parents" ∧ arg.val.val ≠ "children" then
    .error "find: valid values 'parents' or 'children'"
  else
    .ok (sel.addArg arg)

/-- The `switch arg.Name` body of `compileArgs` for one argument
(unknown arguments are ignored). -/
def Compiler.compileArg1 (co : Compiler) (sel : Select) (arg : Arg)
    (role : String) : Except String Select :=
  match arg.name with
  | "id" => Compiler.compileArgID sel arg
  | "search" => co.compileArgSearch sel arg
  | "where" => co.compileArgWhere sel.ti sel arg role
  | "orderby" => Compiler.compileArgOrderBy sel arg
  | "order_by" => Compiler.compileArgOrderBy sel arg
  | "order" => Compiler.compileArgOrderBy sel arg
  | "distinct_on" => co.compileArgDistinctOn sel arg
  | "distinct" => co.compileArgDistinctOn sel arg
  | "limit" => co.compileArgLimit sel arg
  | "offset" => co.compileArgOffset sel arg
  | "first" => co.compileArgFirstLast sel arg .OrderAsc
  | "last" => co.compileArgFirstLast sel arg .OrderDesc
  | "after" => Compiler.compileArgAfterBefore sel arg .PTForward
  | "before" => Compiler.compileArgAfterBefore sel arg .PTBackward
  | "find" => Compiler.compileArgFind sel arg
  | _ => .ok sel

/-- Go `(*Compiler).compileArgs` (`qcode/qcode.go:644`): the dispatch
loop over the argument list. -/
def Compiler.compileArgs (co : Compiler) (sel : Select) (args : List Arg)
    (role : String) : Except String Select :=
  match args with
  | [] => .ok sel
  | arg :: rest =>
    match co.compileArg1 sel arg role with
    | .error e => .error e
    | .ok sel' => co.compileArgs sel' rest role

/-! ## qcode: seek predicate, filters, validation (`qcode/qcode.go`) -/

/-- One leaf of the seek predicate: the body of the inner loop of
`addSeekPredicate` (`qcode/qcode.go:563`), with its three-way op choice
(equality on strict prefixes, `<` for a plain `desc` comparison column,
`>` otherwise). -/
def seekLeaf (i n : Nat) (ob : OrderBy) : Exp :=
  mkCurExp
    (if 0 < i ∧ n ≠ i then .OpEquals
     else if ob.order = .OrderDesc then .OpLesserThan
     else .OpGreaterThan)
    ob.col ob.col.name

/-- The inner loop of `addSeekPredicate`: walk the order-by entries
with index `n`, stopping (`break`) once `n > i`. -/
def seekRow (i : Nat) : List OrderBy → Nat → List Exp
  | [], _ => []
  | ob :: rest, n =>
    if i < n then [] else seekLeaf i n ob :: seekRow i rest (n + 1)

/-- The outer loop of `addSeekPredicate`, counting `i` upward for `k`
more iterations: at `i = 0` the (single) leaf joins the disjunction
directly; for `i > 0` the row is wrapped in an `and` node first. -/
def seekOuter (obs : List OrderBy) : Nat → Nat → List Exp
  | _, 0 => []
  | i, k + 1 =>
    (if i = 0 then seekRow 0 obs 0 else [mkNodeExp .OpAnd (seekRow i obs 0)])
      ++ seekOuter obs (i + 1) k

/-- Go `(*Compiler).addSeekPredicate` (`qcode/qcode.go:540`): build the
keyset disjunction headed by the `is null` cursor leaf and AND it onto
the select's `Where`.  (With an empty OrderBy the Go code hands a nil
pointer to `setFilter`; the call site runs after `orderByIDCol`, which
guarantees at least the tie-breaker entry, so that case leaves the
select unchanged here.) -/
def Compiler.addSeekPredicate (sel : Select) : Select :=
  match sel.orderBy with
  | [] => sel
  | ob0 :: _ =>
    let isnull := mkCurExp .OpIsNull ob0.col "true"
    let or0 := mkNodeExp .OpOr (isnull :: seekOuter sel.orderBy 0 sel.orderBy.length)
    { sel with whereE := some (setFilter sel.whereE or0) }

/-- Go `(*Compiler).validateSelect` (`qcode/qcode.go:696`). -/
def validateSelect (sel : Select) : Except String Unit :=
  if sel.rel.typ = .RelRecursive then
    match sel.argMapGet "find" with
    | none => .error "arguments: 'find' needed for recursive queries"
    | some v =>
      if v.val ≠ "parents" ∧ v.val ≠ "children" then
        .error "find: valid values are 'parents' and 'children'"
      else .ok ()
  else .ok ()

/-- Go `(*Compiler).setMutationType` (`qcode/qcode.go:709`): scan the
root field's arguments and set the mutation sub-kind from the first
`insert`/`update`/`upsert`/`delete` argument; `delete: false` coerces
the operation kind back to a plain query. -/
def setMutationType (qc : QCode) : List Arg → Except String QCode
  | [] => .ok qc
  | arg :: rest =>
    let setActionVar (qc' : QCode) : Except String QCode :=
      if arg.val.typ ≠ .NodeVar then .error (argErr arg.name "variable")
      else .ok { qc' with actionVar := arg.val.val }
    match arg.name with
    | "insert" => setActionVar { qc with styp := .QTInsert }
    | "update" => setActionVar { qc with styp := .QTUpdate }
    | "upsert" => setActionVar { qc with styp := .QTUpsert }
    | "delete" =>
      let qc₁ := { qc with styp := .QTDelete }
      if arg.val.typ ≠ .NodeBool then .error (argErr arg.name "boolen")
      else if arg.val.val = "false" then .ok { qc₁ with typ := .QTQuery }
      else .ok qc₁
    | _ => setMutationType qc rest

/-! ## qcode: relationship binding and the select loop (`qcode/qcode.go:282`) -/

/-- Go `(*Compiler).setSingular` (`qcode/qcode.go:490`). -/
def Compiler.setSingular (co : Compiler) (fieldName : String) (sel : Select) : Select :=
  if sel.singular then sel
  else
    let sel₁ :=
      if co.c.enableInflection then
        { sel with singular := co.c.singularizeFn fieldName = fieldName }
      else sel
    if (sel₁.rel.typ = .RelOneToMany ∧ ¬ sel₁.rel.right.col.array)
        ∨ sel₁.rel.typ = .RelPolymorphic then
      { sel₁ with singular := true }
    else
      match sel₁.joins.getLast? with
      | none => sel₁
      | some lj =>
        if (lj.typ = .RelOneToMany ∧ ¬ lj.right.col.array) ∨ lj.typ = .RelPolymorphic then
          { sel₁ with singular := true }
        else sel₁

/-- Go `(*Compiler).setLimit` (`qcode/qcode.go:516`): role-policy limit,
else config default, else 20. -/
def Compiler.setLimit (co : Compiler) (tr : trval) (qc : QCode) (sel : Select) : Select :=
  if tr.limit qc.typ ≠ 0 then
    { sel with paging := { sel.paging with limit := tr.limit qc.typ } }
  else if co.c.defaultLimit ≠ 0 then
    { sel with paging := { sel.paging with limit := co.c.defaultLimit } }
  else
    { sel with paging := { sel.paging with limit := 20 } }

/-- The parent-linking head of `addRelInfo` (`qcode/qcode.go:418`):
register a root select in `Roots`; otherwise append the child's id to
the parent select's `Children` and fetch the parent field.  Out-of-
range slice indexing (a Go panic) surfaces as an error prefixed
"panic:". -/
def relLinkParent (op : Operation) (qc : QCode) (sel : Select) (field : Field) :
    Except String (QCode × Option Select × Option Field) :=
  if sel.parentID = -1 then
    .ok ({ qc with roots := qc.roots ++ [sel.id] }, none, none)
  else
    match qc.selects[sel.parentID.toNat]? with
    | none => .error "panic: index out of range in qc.Selects"
    | some psel =>
      let psel' := { psel with children := psel.children ++ [sel.id] }
      let qc' := { qc with selects := qc.selects.set sel.parentID.toNat psel' }
      if 0 ≤ field.parentID then
        match op.fields[field.parentID.toNat]? with
        | none => .error "panic: index out of range in op.Fields"
        | some pf => .ok (qc', some psel', some pf)
      else
        .error "panic: index out of range in op.Fields"

/-- The `switch field.Type` of `addRelInfo` (`qcode/qcode.go:426`):
union selects need a parent; a member select copies the parent's
`Singular` and shifts the child/parent field context up one level. -/
def relFieldType (op : Operation) (sel : Select) (field : Field)
    (psel? : Option Select) (parentF? : Option Field) :
    Except String (Select × Field × Option Field) :=
  match field.typ with
  | .FieldUnion =>
    if psel?.isNone then
      .error "union types are only valid with polymorphic relationships"
    else
      .ok ({ sel with typ := .SelTypeUnion }, field, parentF?)
  | .FieldMember =>
    match psel?, parentF? with
    | some psel, some parentF =>
      if 0 ≤ parentF.parentID then
        match op.fields[parentF.parentID.toNat]? with
        | none => .error "panic: index out of range in op.Fields"
        | some gpf =>
          .ok ({ sel with typ := .SelTypeMember, singular := psel.singular },
            parentF, some gpf)
      else
        .error "panic: index out of range in op.Fields"
    | _, _ => .error "panic: nil pointer dereference"
  | _ => .ok (sel, field, parentF?)

/-- The relationship-path resolution of `addRelInfo`
(`qcode/qcode.go:450`): `FindPath(child, parent)`, first edge into
`Rel`, remaining edges into `Joins`. -/
def Compiler.relFindPath (co : Compiler) (sel : Select) (childF : Field)
    (parentF? : Option Field) : Except String Select :=
  if sel.parentID ≠ -1 then
    match co.s.FindPath childF.name ((parentF?.map Field.name).getD "") with
    | .error e => .error e
    | .ok [] =>
      .error ("no relationship found: " ++ childF.name ++ " -> "
        ++ ((parentF?.map Field.name).getD ""))
    | .ok (p :: prest) =>
      .ok { sel with rel := PathToRel p, joins := sel.joins ++ prest.map PathToRel }
  else
    .ok sel

/-- The table binding of `addRelInfo` (`qcode/qcode.go:465`): resolve
by field name for roots and polymorphic members, else take the left
table of the relationship; reject blocked tables (with the source's
`'%t'`-formatted message). -/
def Compiler.relBindTable (co : Compiler) (sel : Select) (field : Field) :
    Except String Select :=
  match (if sel.parentID = -1 ∨ sel.rel.typ = .RelPolymorphic then
      co.s.Find co.c.dbschema field.name
    else .ok sel.rel.left.ti) with
  | .error e => .error e
  | .ok ti =>
    if ti.blocked then .error ("table: 'true' (" ++ field.name ++ ") blocked")
    else .ok { sel with ti := ti, table := ti.name }

/-- Go `(*Compiler).addRelInfo` (`qcode/qcode.go:410`), assembled from
its sequential blocks: parent linking, the field-type switch, the
`@not_related` (RelSkip) early return, path resolution, table binding,
the remote early return, and singularity inference. -/
def Compiler.addRelInfo (co : Compiler) (op : Operation) (qc : QCode) (sel : Select)
    (field : Field) : Except String (QCode × Select) :=
  match relLinkParent op qc sel field with
  | .error e => .error e
  | .ok (qc₁, psel?, parentF?) =>
    match relFieldType op sel field psel? parentF? with
    | .error e => .error e
    | .ok (sel₁, childF, parentG?) =>
      if sel₁.rel.typ = .RelSkip then
        .ok (qc₁, { sel₁ with rel := { sel₁.rel with typ := .RelNone } })
      else
        match co.relFindPath sel₁ childF parentG? with
        | .error e => .error e
        | .ok sel₂ =>
          match co.relBindTable sel₂ field with
          | .error e => .error e
          | .ok sel₄ =>
            if sel₄.rel.typ = .RelRemote then
              .ok ({ qc₁ with remotes := qc₁.remotes + 1 },
                { sel₄ with table := field.name })
            else
              .ok (qc₁, co.setSingular field.name sel₄)

/-- Modelled from the spec: cursor finalisation (§4.4 step "Cursor
finalisation", invariant 3) — `orderByIDCol` (outside this snapshot)
appends the table's primary/identifier column to `OrderBy` as the
uniqueness tie-breaker, in the direction stored by `first`/`last`
(ascending when none was stored); a table without a primary key cannot
cursor-page. -/
def Compiler.orderByIDCol (sel : Select) : Except String Select :=
  if sel.ti.primaryCol.name = "" then
    .error ("no primary key column defined for " ++ sel.table)
  else
    let ord := if sel.order = .OrderUnset then .OrderAsc else sel.order
    .ok { sel with orderBy := sel.orderBy ++ [{ col := sel.ti.primaryCol, order := ord }] }

/-- The 16-bit work-stack packing of `compileQuery` (`qcode/qcode.go:304`):
the parent tag in the upper half, the field id in the lower half of the
int32 bit pattern (field ids are below 2^16 under the parser's dense-id
contract, so the pattern is this sum). -/
def encodeVal (pid fid : Nat) : Nat := pid * 65536 + fid

/-- The synthetic root tag: the bit pattern of `f.ID | (-1 << 16)`. -/
def encodeRootVal (fid : Nat) : Nat := encodeVal 65535 fid

/-- Modelled from the spec: `compileColumns` (§4.4.4) — walk the
field's sub-fields in declared order; a sub-field with its own
sub-fields is a relationship and its id is pushed (tagged with the
current select's id); otherwise the name is classified by `isFunction`
(`qcode/fn.go`): skipped markers are dropped, functions land in
`Funcs` (aggregates resolving through `parseFuncExpression`), plain
names resolve as projected columns. -/
def Compiler.compileColumnsLoop (co : Compiler) (op : Operation) :
    List Field → Select → List Nat → Except String (Select × List Nat)
  | [], s, pushed => .ok (s, pushed)
  | f :: rest, s, pushed =>
    if (op.childFields f).length ≠ 0 then
      co.compileColumnsLoop op rest s (pushed ++ [encodeVal s.id.toNat f.id])
    else
      match co.isFunction s f.name with
      | .error e => .error e
      | .ok (s2, fn, fnExp, _agg) =>
        if fn.skip then
          co.compileColumnsLoop op rest s2 pushed
        else if fn.name ≠ "" then
          if fnExp ≠ "" then
            match co.parseFuncExpression s2 fn fnExp with
            | .ok fn2 =>
              co.compileColumnsLoop op rest { s2 with funcs := s2.funcs ++ [fn2] } pushed
            | .err e => .error e
            | .panic p => .error ("panic: " ++ p)
          else
            co.compileColumnsLoop op rest { s2 with funcs := s2.funcs ++ [fn] } pushed
        else
          match s2.ti.GetColumn f.name with
          | .ok c =>
            let cname := if f.aliasName ≠ "" then f.aliasName else f.name
            co.compileColumnsLoop op rest
              { s2 with cols := s2.cols ++ [{ col := c, fieldName := cname }] } pushed
          | .error e => .error e

/-- Entry: classify and project the field's sub-fields, starting from
an empty push list. -/
def Compiler.compileColumns (co : Compiler) (op : Operation) (sel : Select)
    (field : Field) : Except String (Select × List Nat) :=
  co.compileColumnsLoop op (op.childFields field) sel []

/-- One iteration of the `compileQuery` loop for a non-keyword field
(`qcode/qcode.go:330`–`400`): allocate the select with the decoded
parent tag, run directives, relationship binding, access policy,
limit, arguments, columns/child enqueue, baseline filters, cursor
finalisation and validation, then append the select. -/
def Compiler.compileStep (co : Compiler) (role : String) (op : Operation)
    (field : Field) (pidRaw : Nat) (id : Int) (qc : QCode) :
    Except String (QCode × List Nat) :=
  let parentID : Int := if field.parentID = -1 then -1 else (pidRaw : Int)
  let sel0 : Select :=
    { id := id, parentID := parentID,
      fieldName := if field.aliasName ≠ "" then field.aliasName else field.name,
      children := [] }
  match co.compileDirectives sel0 field.directives with
  | .error e => .error e
  | .ok sel1 =>
    match co.addRelInfo op qc sel1 field with
    | .error e => .error e
    | .ok (qc1, sel2) =>
      let tr := co.getRole role field.name
      match (if tr.isSkipped qc1.typ then
          .ok { sel2 with skipRender := .SkipTypeUserNeeded }
        else
          match tr.isBlocked qc1.styp field.name with
          | .error e => .error e
          | .ok _ => .ok sel2 : Except String Select) with
      | .error e => .error e
      | .ok sel3 =>
        let sel4 := co.setLimit tr qc1 sel3
        match co.compileArgs sel4 field.args role with
        | .error e => .error e
        | .ok sel5 =>
          match co.compileColumns op sel5 field with
          | .error e => .error e
          | .ok (sel6, pushed) =>
            let wu := addFilters qc1 sel6.whereE tr
            let skipR : SkipType :=
              if wu.2 ∧ role = "anon" then .SkipTypeUserNeeded else sel6.skipRender
            let sel7 := { sel6 with whereE := wu.1, skipRender := skipR }
            match (if sel7.paging.cursor then
                match Compiler.orderByIDCol sel7 with
                | .error e => .error e
                | .ok s1 =>
                  .ok (if s1.paging.typ ≠ .PTOffset then
                    Compiler.addSeekPredicate s1 else s1)
              else .ok sel7 : Except String Select) with
            | .error e => .error e
            | .ok sel8 =>
              match validateSelect sel8 with
              | .error e => .error e
              | .ok _ => .ok ({ qc1 with selects := qc1.selects ++ [sel8] }, pushed)

/-- The work-stack loop of `compileQuery` (`qcode/qcode.go:309`): pop,
check the selector cap, decode `fid`/`parentID` from the 16-bit
packing, skip keyword (cursor) fields, and compile one select per
entry.  The loop is driven by explicit fuel; the Go loop needs none
(an iteration either consumes a keyword entry or allocates one of at
most 30 selects), and every property proved below holds for all fuel. -/
def Compiler.compileLoop (co : Compiler) (role : String) (op : Operation) :
    Nat → List Nat → Int → QCode → Except String QCode
  | 0, _, _, _ => .error "out of fuel"
  | _ + 1, [], id, qc =>
      if id = 0 then .error "invalid query" else .ok qc
  | fuel + 1, val :: rest, id, qc =>
      if 30 ≤ id then .error "selector limit reached (30)"
      else
        match op.fields[val % 65536]? with
        | none => .error "panic: index out of range in op.Fields"
        | some field =>
          if field.typ = .FieldKeyword then
            co.compileLoop role op fuel rest id qc
          else
            match co.compileStep role op field ((val / 65536) % 65536) id qc with
            | .error e => .error e
            | .ok (qc', pushed) =>
              co.compileLoop role op fuel (pushed.reverse ++ rest) (id + 1) qc'

/-- Go `(*Compiler).compileQuery` (`qcode/qcode.go:282`): mutation
sub-kind detection from the first field's arguments, root-field priming
of the work stack (roots are tagged `-1`, packed as `0xFFFF` in the
upper half), then the select loop. -/
def Compiler.compileQuery (co : Compiler) (qc : QCode) (op : Operation) (role : String)
    (fuel : Nat) : Except String QCode :=
  if op.fields.length = 0 then
    .error "invalid graphql no query found"
  else
    match (if op.typ = .OpMutate then setMutationType qc (op.fields.headD {}).args
      else .ok qc : Except String QCode) with
    | .error e => .error e
    | .ok qc₁ =>
      let st := op.fields.foldl
        (fun acc f => if f.parentID = -1 then encodeRootVal f.id :: acc else acc) []
      co.compileLoop role op fuel st 0 { qc₁ with selects := [] }

/-- Modelled from the spec: the mutation compiler pass is out of scope
("beyond its entry contract", §1); it is modelled as succeeding with
the QCode unchanged. -/
def Compiler.compileMutation (qc : QCode) : Except String QCode := .ok qc

/-- Go `(*Compiler).Compile` (`qcode/qcode.go:247`).  Parsing
(`graph.Parse`) belongs to the external parser (§6), so the parsed
`Operation` is the input here; `fuel` bounds the select loop. -/
def Compiler.Compile (co : Compiler) (op : Operation) (vars : List (String × String))
    (role : String) (fuel : Nat) : Except String QCode :=
  let qc0 : QCode := { styp := .QTQuery, vars := vars }
  let qc1 : QCode :=
    match op.typ with
    | .OpQuery => { qc0 with typ := .QTQuery }
    | .OpSub => { qc0 with typ := .QTSubscription }
    | .OpMutate => { qc0 with typ := .QTMutation }
  match co.compileQuery qc1 op role fuel with
  | .error e => .error e
  | .ok qc2 =>
    if qc2.typ = .QTMutation then Compiler.compileMutation qc2 else .ok qc2

/-! ## Properties of the schema graph (C7) -/

/-- The FK relationship classification in the order the source checks
it (`sdata/schema.go:227`): the recursive case first, then the
unique-key case, then one-to-many. -/
def classifyFKRel (ownName fkTable : String) (fcUnique : Bool) : RelType :=
  if ownName = fkTable then .RelRecursive
  else if fcUnique then .RelOneToOne
  else .RelOneToMany

theorem addColumnRelsLoop_edges (t : DBTable) :
    ∀ (cols : List DBColumn) (s s' : DBSchema),
      DBSchema.addColumnRelsLoop t s cols = .ok s' →
      ∃ new, s'.edges = s.edges ++ new ∧
        ∀ e ∈ new, e.lt = t ∧
          e.relT = classifyFKRel t.name e.lc.fKeyTable e.rc.uniqueKey := by
  intro cols
  induction cols with
  | nil =>
    intro s s' h
    simp only [DBSchema.addColumnRelsLoop] at h
    cases h
    exact ⟨[], by simp, by simp⟩
  | cons c0 rest ih =>
    intro s s' h
    simp only [DBSchema.addColumnRelsLoop, DBSchema.addToGraph] at h
    repeat' split at h
    all_goals
      first
      | exact absurd h (by simp)
      | exact ih _ _ h
      | (obtain ⟨new, hn, he⟩ := ih _ _ h
         refine ⟨_ :: new, by simpa using hn, ?_⟩
         intro e hmem
         rcases List.mem_cons.mp hmem with h1 | h2
         · subst h1
           refine ⟨rfl, ?_⟩
           simp only [classifyFKRel]
           split <;> simp_all
         · exact he e h2)

/-- Claim C7: during schema-graph construction, every edge inserted for
a foreign-key column is classified *recursive* when the target table
equals the column's own table (this case taking precedence over the
unique-key case), else *one-to-one* when the target column has its
unique-key flag set, else *one-to-many*. -/
theorem c7_fkRel_classification (s s' : DBSchema) (t : DBTable)
    (h : s.addColumnRels t = .ok s') :
    ∃ new, s'.edges = s.edges ++ new ∧
      ∀ e ∈ new, e.lt = t ∧
        e.relT = classifyFKRel t.name e.lc.fKeyTable e.rc.uniqueKey :=
  addColumnRelsLoop_edges t t.columns s s' h

def c7colOther : DBColumn :=
  { schema := "public", table := "others", name := "id", typ := "int", uniqueKey := true }

def c7colLabel : DBColumn :=
  { schema := "public", table := "tags", name := "label", typ := "text" }

def c7others : DBTable :=
  { schema := "public", name := "others", typ := "table", columns := [c7colOther] }

def c7tags : DBTable :=
  { schema := "public", name := "tags", typ := "table", columns := [c7colLabel] }

def c7colSelf : DBColumn :=
  { schema := "public", table := "nodes", name := "id", typ := "int", uniqueKey := true }

def c7colParent : DBColumn :=
  { schema := "public", table := "nodes", name := "parent_id", typ := "int",
    fKeySchema := "public", fKeyTable := "nodes", fKeyCol := "id" }

def c7colOwner : DBColumn :=
  { schema := "public", table := "nodes", name := "owner_id", typ := "int",
    fKeySchema := "public", fKeyTable := "others", fKeyCol := "id" }

def c7colTag : DBColumn :=
  { schema := "public", table := "nodes", name := "tag", typ := "text",
    fKeySchema := "public", fKeyTable := "tags", fKeyCol := "label" }

/-- A table with a self-referencing FK onto a unique column (the
precedence case), an FK onto a unique column of another table, and an
FK onto a non-unique column. -/
def c7nodes : DBTable :=
  { schema := "public", name := "nodes", typ := "table",
    columns := [c7colSelf, c7colParent, c7colOwner, c7colTag], primaryCol := c7colSelf }

def c7schema : DBSchema :=
  { typ := "postgres", tables := [c7nodes, c7others, c7tags],
    tindex := [("public:nodes", 0), ("public:others", 1), ("public:tags", 2)] }

/-- Witness for C7 at a concrete schema: the self-FK edge comes out
recursive even though its target column is unique, the cross-table
unique FK one-to-one, the non-unique FK one-to-many. -/
theorem c7_fkRel_classification_witness :
    (∃ s', c7schema.addColumnRels c7nodes = .ok s' ∧
      ∃ new, s'.edges = c7schema.edges ++ new ∧
        ∀ e ∈ new, e.lt = c7nodes ∧
          e.relT = classifyFKRel c7nodes.name e.lc.fKeyTable e.rc.uniqueKey)
    ∧ (c7schema.addColumnRels c7nodes).map (fun s => s.edges.map TEdge.relT)
        = .ok [.RelRecursive, .RelOneToOne, .RelOneToMany] :=
  ⟨⟨_, rfl, c7_fkRel_classification c7schema _ c7nodes rfl⟩, rfl⟩

/-! ## Baseline filter AND user filter (C6) -/

/-- Claim C6: when the role policy supplies a baseline filter `F` that
is neither the no-op nor the `false` pseudo-filter, and the select's
`Where` already holds the user-supplied `where` filter `W`, applying
the role filters yields a single AND node whose two children are `F`
and `W` (`addFilters` dispatching to `setFilter`). -/
theorem c6_addFilters_and_node (qc : QCode) (trv : trval) (W F : Exp) (nu : Bool)
    (hf : trv.filter qc.styp = some (F, nu))
    (h1 : F.op ≠ .OpNop) (h2 : F.op ≠ .OpFalse) :
    addFilters qc (some W) trv = (some (mkNodeExp .OpAnd [F, W]), nu) := by
  unfold addFilters setFilter
  rw [hf]
  cases hop : F.op <;> simp_all

def c6F : Exp := mkValExp .OpEquals .ValVar "user_id"

def c6W : Exp := mkValExp .OpGreaterThan .ValNum "5"

def c6trv : trval := { query := { filter := some c6F, userNeeded := true } }

/-- Witness for C6 at a concrete policy and filter. -/
theorem c6_addFilters_and_node_witness :
    addFilters { styp := .QTQuery } (some c6W) c6trv
      = (some (mkNodeExp .OpAnd [c6F, c6W]), true) :=
  c6_addFilters_and_node { styp := .QTQuery } c6trv c6W c6F true rfl
    (by simp [c6F, mkValExp, Exp.op]) (by simp [c6F, mkValExp, Exp.op])

/-! ## `id` argument overwrites the Where (C9) -/

/-- The `op_equals(primary_col, value)` expression `compileArgID`
builds, by the argument node's kind. -/
def idEqExp (col : DBColumn) (node : Node) : Exp :=
  .mk .OpEquals "" [] col
    (match node.typ with
     | .NodeNum => .ValNum
     | .NodeStr => .ValStr
     | _ => .ValVar)
    node.val .ValUnset [] [] []

theorem compileArgID_sets_where (sel sel' : Select) (arg : Arg)
    (h : Compiler.compileArgID sel arg = .ok sel') :
    sel'.whereE = some (idEqExp sel.ti.primaryCol arg.val)
      ∧ sel'.singular = true := by
  unfold Compiler.compileArgID at h
  simp only [bind, Except.bind, pure, Except.pure] at h
  repeat' split at h
  all_goals cases h
  all_goals simp_all [idEqExp]

theorem compileDirectiveSkip_isSome (sel sel' : Select) (d : Directive)
    (h : Compiler.compileDirectiveSkip sel d = .ok sel') :
    sel'.whereE.isSome = true := by
  unfold Compiler.compileDirectiveSkip at h
  repeat' split at h
  all_goals cases h
  simp

/-- Claim C9 (implicit): `compileArgID` assigns the
op-equals(primary-column, value) expression directly to the select's
`Where`, replacing rather than AND-combining any filter already present
(the produced expression has no children); in particular, after a
`@skip(if: $v)` directive has installed its filter, a subsequent `id`
argument silently discards it. -/
theorem c9_compileArgID_replaces_where :
    (∀ (sel sel' : Select) (arg : Arg),
        Compiler.compileArgID sel arg = .ok sel' →
        sel'.whereE = some (idEqExp sel.ti.primaryCol arg.val)
          ∧ (idEqExp sel.ti.primaryCol arg.val).children = [])
  ∧ (∀ (sel sel₁ sel₂ : Select) (d : Directive) (arg : Arg),
        Compiler.compileDirectiveSkip sel d = .ok sel₁ →
        Compiler.compileArgID sel₁ arg = .ok sel₂ →
        sel₁.whereE.isSome = true ∧
        sel₂.whereE = some (idEqExp sel₁.ti.primaryCol arg.val)) := by
  constructor
  · intro sel sel' arg h
    exact ⟨(compileArgID_sets_where sel sel' arg h).1, rfl⟩
  · intro sel sel₁ sel₂ d arg hskip hid
    exact ⟨compileDirectiveSkip_isSome sel sel₁ d hskip,
      (compileArgID_sets_where sel₁ sel₂ arg hid).1⟩

def c9col : DBColumn :=
  { schema := "public", table := "users", name := "id", typ := "int", primaryKey := true }

def c9ti : DBTable :=
  { schema := "public", name := "users", typ := "table", columns := [c9col],
    primaryCol := c9col }

def c9sel : Select := { id := 0, parentID := -1, table := "users", ti := c9ti }

def c9dir : Directive :=
  { name := "skip", args := [{ name := "if", val := .mk .NodeVar "" "visible" [] }] }

def c9arg : Arg := { name := "id", val := .mk .NodeNum "" "5" [] }

def c9sel1 : Select :=
  ((Compiler.compileDirectiveSkip c9sel c9dir).toOption).getD c9sel

def c9sel2 : Select :=
  ((Compiler.compileArgID c9sel1 c9arg).toOption).getD c9sel

/-- Witness for C9: a root select with a `@skip` directive followed by
`id: 5` ends with `Where` equal to the bare id-equality leaf; the skip
filter that was present in between is gone. -/
theorem c9_compileArgID_replaces_where_witness :
    Compiler.compileDirectiveSkip c9sel c9dir = .ok c9sel1 ∧
      Compiler.compileArgID c9sel1 c9arg = .ok c9sel2 ∧
      c9sel1.whereE.isSome = true ∧
      c9sel2.whereE = some (idEqExp c9sel1.ti.primaryCol c9arg.val) := by
  have h1 : Compiler.compileDirectiveSkip c9sel c9dir = .ok c9sel1 := by rfl
  have h2 : Compiler.compileArgID c9sel1 c9arg = .ok c9sel2 := by rfl
  exact ⟨h1, h2,
    (c9_compileArgID_replaces_where.2 c9sel c9sel1 c9sel2 c9dir c9arg h1 h2).1,
    (c9_compileArgID_replaces_where.2 c9sel c9sel1 c9sel2 c9dir c9arg h1 h2).2⟩

/-! ## Unchecked FindPath error in parseFuncExpression (C10) -/

/-- Claim C10 (implicit): in `parseFuncExpression`, the error returned
by `FindPath` between the aggregate's table and the current select's
table is not checked before `paths[0]` is indexed, so whenever the
lookups preceding it succeed but no relationship path exists, the
function panics on the out-of-bounds index instead of returning the
error. -/
theorem c10_parseFuncExpression_panics (co : Compiler) (sel : Select) (fn : Function)
    (fnExp : String) (table : DBTable) (column : DBColumn) (e : String)
    (h1 : strHasPre fnExp "_" = true)
    (h2 : co.s.Find co.c.dbschema ((strSplitUU (fnExp.drop 1)).headD "") = .ok table)
    (h3 : (if (strSplitUU (fnExp.drop 1)).length = 1 then Except.ok table.primaryCol
           else table.GetColumn ((strSplitUU (fnExp.drop 1)).getD 1 "")) = .ok column)
    (h4 : co.s.FindPath table.name sel.table = .error e) :
    co.parseFuncExpression sel fn fnExp
      = .panic "runtime error: index out of range [0] with length 0" := by
  unfold Compiler.parseFuncExpression
  simp only [h1, if_true, h2, h3, h4]

def c10colUid : DBColumn :=
  { schema := "public", table := "users", name := "id", typ := "int", primaryKey := true }

def c10users : DBTable :=
  { schema := "public", name := "users", typ := "table", columns := [c10colUid],
    primaryCol := c10colUid }

def c10posts : DBTable :=
  { schema := "public", name := "posts", typ := "table", columns := [], primaryCol := {} }

/-- A path search that knows no relationship at all. -/
def c10findPath (c p : String) : Except String (List TPath) :=
  .error ("no relationship found: " ++ c ++ " -> " ++ p)

def c10schema : DBSchema :=
  { typ := "postgres", tables := [c10users, c10posts], findPathFn := c10findPath }

def c10co : Compiler := { s := c10schema }

def c10sel : Select := { id := 0, table := "posts", ti := c10posts }

/-- Witness for C10: the select sits on `posts`, the aggregate field
`count_users__id` resolves its table and column, and no relationship
path exists, so the compiler panics. -/
theorem c10_parseFuncExpression_panics_witness :
    c10co.parseFuncExpression c10sel { fieldName := "count_users__id", name := "count" }
        "_users__id"
      = .panic "runtime error: index out of range [0] with length 0" :=
  c10_parseFuncExpression_panics c10co c10sel
    { fieldName := "count_users__id", name := "count" } "_users__id"
    c10users c10colUid "no relationship found: users -> posts" rfl rfl rfl rfl

/-! ## Order-by: textual order and the duplicate check (C4, C5) -/

/-- The order-by entries of an argument object read in textual order:
each child parsed by `parseOrderByNode`, with the source's duplicate
check (against the pre-existing columns `cm` only).  The amended C4
compares `compileArgOrderBy` against this description. -/
def orderByTextual (ti : DBTable) (cm : List String) :
    List Node → Except String (List OrderBy)
  | [] => .ok []
  | node :: rest =>
    match parseOrderByNode ti node with
    | .error e => .error e
    | .ok ob =>
      if cm.contains ob.col.name then
        .error ("duplicate column in order by: " ++ ob.col.name)
      else
        match orderByTextual ti cm rest with
        | .error e => .error e
        | .ok obs => .ok (ob :: obs)

theorem orderByLoop_to_textual (ti : DBTable) (cm : List String) :
    ∀ (l : List Node) (acc r : List OrderBy),
      orderByLoop ti cm l acc = .ok r →
      ∃ obs, orderByTextual ti cm l = .ok obs ∧ r = acc ++ obs := by
  intro l
  induction l with
  | nil =>
    intro acc r h
    simp only [orderByLoop] at h
    cases h
    exact ⟨[], rfl, by simp⟩
  | cons node rest ih =>
    intro acc r h
    simp only [orderByLoop] at h
    split at h
    · exact absurd h (by simp)
    · rename_i ob hob
      split at h
      · exact absurd h (by simp)
      · rename_i hdup
        obtain ⟨obs, hobs, hr⟩ := ih _ r h
        refine ⟨ob :: obs, ?_, ?_⟩
        · simp only [orderByTextual, hob]
          rw [if_neg hdup, hobs]
        · simp [hr]

theorem orderByTextual_append (ti : DBTable) (cm : List String) :
    ∀ (l1 l2 : List Node) (o1 o2 : List OrderBy),
      orderByTextual ti cm l1 = .ok o1 → orderByTextual ti cm l2 = .ok o2 →
      orderByTextual ti cm (l1 ++ l2) = .ok (o1 ++ o2) := by
  intro l1
  induction l1 with
  | nil =>
    intro l2 o1 o2 h1 h2
    simp only [orderByTextual] at h1
    cases h1
    simpa using h2
  | cons node rest ih =>
    intro l2 o1 o2 h1 h2
    simp only [orderByTextual] at h1 ⊢
    split at h1
    · exact absurd h1 (by simp)
    · rename_i ob hob
      split at h1
      · exact absurd h1 (by simp)
      · rename_i hdup
        rw [if_neg hdup]
        split at h1
        · exact absurd h1 (by simp)
        · rename_i obs hobs
          cases h1
          rw [List.append_eq, ih l2 obs o2 hobs h2]
          rfl

theorem orderByTextual_reverse (ti : DBTable) (cm : List String) :
    ∀ (l : List Node) (obs : List OrderBy),
      orderByTextual ti cm l = .ok obs →
      orderByTextual ti cm l.reverse = .ok obs.reverse := by
  intro l
  induction l with
  | nil =>
    intro obs h
    simp only [orderByTextual] at h
    cases h
    simp [orderByTextual]
  | cons node rest ih =>
    intro obs h
    simp only [orderByTextual] at h
    split at h
    · exact absurd h (by simp)
    · rename_i ob hob
      split at h
      · exact absurd h (by simp)
      · rename_i hdup
        split at h
        · exact absurd h (by simp)
        · rename_i obs' hobs'
          cases h
          have hsingle : orderByTextual ti cm [node] = .ok [ob] := by
            simp only [orderByTextual, hob]
            rw [if_neg hdup]
          have := orderByTextual_append ti cm rest.reverse [node]
            obs'.reverse [ob] (ih obs' hobs') hsingle
          simpa using this

/-- Amended claim C4: the entries of an `order_by` argument object are
appended to `Select.OrderBy` in their *textual* order (the LIFO stack
reverses them and the backwards final append reverses them again), so a
textually-earlier key is more significant. -/
theorem c4_order_by_appends_textual (sel sel' : Select) (arg : Arg)
    (h : Compiler.compileArgOrderBy sel arg = .ok sel') :
    ∃ obs, orderByTextual sel.ti
        (if sel.orderBy.length ≠ 0 then sel.orderBy.map (fun ob => ob.col.name) else [])
        arg.val.children = .ok obs ∧
      sel'.orderBy = sel.orderBy ++ obs := by
  unfold Compiler.compileArgOrderBy at h
  split at h
  · exact absurd h (by simp)
  · split at h
    · rename_i hlen
      rw [if_pos hlen]
      dsimp only at h
      split at h
      · exact absurd h (by simp)
      · rename_i obList hLoop
        cases h
        obtain ⟨obs, hobs, hr⟩ := orderByLoop_to_textual sel.ti _ _ _ _ hLoop
        simp only [List.nil_append] at hr
        subst hr
        have hrev := orderByTextual_reverse sel.ti _ _ _ hobs
        simp only [List.reverse_reverse] at hrev
        exact ⟨obList.reverse, hrev, rfl⟩
    · rename_i hlen
      rw [if_neg hlen]
      dsimp only at h
      split at h
      · exact absurd h (by simp)
      · rename_i obList hLoop
        cases h
        obtain ⟨obs, hobs, hr⟩ := orderByLoop_to_textual sel.ti _ _ _ _ hLoop
        simp only [List.nil_append] at hr
        subst hr
        have hrev := orderByTextual_reverse sel.ti _ _ _ hobs
        simp only [List.reverse_reverse] at hrev
        exact ⟨obList.reverse, hrev, rfl⟩

def c4colName : DBColumn :=
  { schema := "public", table := "users", name := "name", typ := "text" }

def c4colEmail : DBColumn :=
  { schema := "public", table := "users", name := "email", typ := "text" }

def c4ti : DBTable :=
  { schema := "public", name := "users", typ := "table",
    columns := [c4colName, c4colEmail] }

def c4sel : Select := { table := "users", ti := c4ti }

/-- The argument object `order_by: {name: asc, email: desc}` (children
in textual order). -/
def c4arg : Arg :=
  { name := "order_by",
    val := .mk .NodeObj "" ""
      [ .mk .NodeStr "name" "asc" [], .mk .NodeStr "email" "desc" [] ] }

def c4obName : OrderBy := { col := c4colName, order := .OrderAsc }

def c4obEmail : OrderBy := { col := c4colEmail, order := .OrderDesc }

/-- Counterexample to C4 as stated: with the textually-ordered pairs
(name: asc, email: desc), the claim predicts the reversed OrderBy
`[email, name]`; the compiler produces the textual `[name, email]`. -/
theorem c4_order_by_reversed_counterexample :
    (Compiler.compileArgOrderBy c4sel c4arg).map (fun s => s.orderBy)
        = .ok [c4obName, c4obEmail]
      ∧ ([c4obName, c4obEmail] : List OrderBy) ≠ [c4obEmail, c4obName] :=
  ⟨rfl, by decide⟩

def c4res : Select :=
  ((Compiler.compileArgOrderBy c4sel c4arg).toOption).getD c4sel

/-- Witness for the amended C4 at the concrete two-column object. -/
theorem c4_order_by_appends_textual_witness :
    Compiler.compileArgOrderBy c4sel c4arg = .ok c4res ∧
    ∃ obs, orderByTextual c4sel.ti
        (if c4sel.orderBy.length ≠ 0 then c4sel.orderBy.map (fun ob => ob.col.name) else [])
        c4arg.val.children = .ok obs ∧
      c4res.orderBy = c4sel.orderBy ++ obs := by
  have h : Compiler.compileArgOrderBy c4sel c4arg = .ok c4res := by rfl
  exact ⟨h, c4_order_by_appends_textual c4sel c4res c4arg h⟩

def c5ti : DBTable :=
  { schema := "public", name := "users", typ := "table", columns := [c4colName] }

def c5sel : Select := { table := "users", ti := c5ti }

/-- The argument object `order_by: {name: asc, name: desc}` — the same
column twice in one object. -/
def c5arg : Arg :=
  { name := "order_by",
    val := .mk .NodeObj "" ""
      [ .mk .NodeStr "name" "asc" [], .mk .NodeStr "name" "desc" [] ] }

/-- Claim C5 (code bug): the spec requires `{name: asc, name: desc}` to
fail with "duplicate column in order by: name", but the duplicate map
`cm` is built only from the entries existing *before* the argument and
never extended with this object's own entries, so the compiler accepts
the object and appends the column twice. -/
theorem c5_duplicate_order_by_accepted :
    (Compiler.compileArgOrderBy c5sel c5arg).map
        (fun s => s.orderBy.map (fun ob => (ob.col.name, ob.order)))
      = .ok [("name", .OrderAsc), ("name", .OrderDesc)]
    ∧ Compiler.compileArgOrderBy c5sel c5arg
        ≠ .error "duplicate column in order by: name" := by
  have h : Compiler.compileArgOrderBy c5sel c5arg
      = .ok (((Compiler.compileArgOrderBy c5sel c5arg).toOption).getD c5sel) := by rfl
  refine ⟨by rw [h]; rfl, by rw [h]; simp⟩

/-! ## The cursor seek predicate (C3) -/

/-- An equality leaf of the seek predicate on a prefix column. -/
def eqLeaf (ob : OrderBy) : Exp := mkCurExp .OpEquals ob.col ob.col.name

/-- The comparison leaf the source builds for the last column of a
disjunct: `<` only for the plain `desc` direction, `>` for every other
direction (including the `desc_nulls_*` variants). -/
def cmpLeaf (ob : OrderBy) : Exp :=
  mkCurExp (if ob.order = .OrderDesc then .OpLesserThan else .OpGreaterThan)
    ob.col ob.col.name

/-- The k-th disjunct (1-based) of the seek predicate: a bare
comparison leaf for k = 1, otherwise an AND node of the k-1 prefix
equalities and the k-th column's comparison. -/
def seekDisjunct (obs : List OrderBy) (k : Nat) : Exp :=
  if k = 1 then cmpLeaf (obs.headD {})
  else mkNodeExp .OpAnd ((obs.take (k - 1)).map eqLeaf ++ [cmpLeaf (obs.getD (k - 1) {})])

/-- The seek disjunction of §4.4.5 with the direction rule the source
implements: the `is null` cursor leaf on the first order column,
followed by one disjunct per prefix length. -/
def seekExpAmended (obs : List OrderBy) : Exp :=
  mkNodeExp .OpOr (mkCurExp .OpIsNull (obs.headD {}).col "true"
    :: (List.range obs.length).map (fun j => seekDisjunct obs (j + 1)))

theorem seekRow_stop (i : Nat) : ∀ (l : List OrderBy) (n : Nat), i < n → seekRow i l n = [] := by
  intro l n hn
  cases l with
  | nil => rfl
  | cons ob rest => simp [seekRow, hn]

theorem seekRow_spec : ∀ (l : List OrderBy) (n i : Nat), n ≤ i →
    seekRow i l n
      = (l.take (i - n)).map eqLeaf ++ ((l.drop (i - n)).take 1).map cmpLeaf := by
  intro l
  induction l with
  | nil => intro n i _; simp [seekRow]
  | cons ob rest ih =>
    intro n i hn
    rw [seekRow, if_neg (by omega : ¬ i < n)]
    by_cases hni : n = i
    · subst hni
      rw [seekRow_stop n rest (n + 1) (by omega)]
      have hli : seekLeaf n n ob = cmpLeaf ob := by
        simp [seekLeaf, cmpLeaf]
      simp [hli, Nat.sub_self]
    · have hlt : n < i := lt_of_le_of_ne hn hni
      have hle : seekLeaf i n ob = eqLeaf ob := by
        simp only [seekLeaf, eqLeaf]
        rw [if_pos ⟨by omega, by omega⟩]
      obtain ⟨m, hm⟩ : ∃ m, i - n = m + 1 := ⟨i - n - 1, by omega⟩
      have hm' : i - (n + 1) = m := by omega
      rw [ih (n + 1) i (by omega), hle, hm, hm']
      simp

theorem seekOuter_ge_one (obs : List OrderBy) : ∀ (k i : Nat), 1 ≤ i →
    seekOuter obs i k
      = (List.range' i k).map (fun j => mkNodeExp .OpAnd (seekRow j obs 0)) := by
  intro k
  induction k with
  | zero => intro i _; simp [seekOuter]
  | succ k ih =>
    intro i hi
    rw [seekOuter, List.range'_succ]
    simp only [List.map_cons]
    rw [if_neg (by omega : ¬ i = 0), ih (i + 1) (by omega)]
    simp

theorem drop_take_one (l : List OrderBy) (j : Nat) (hj : j < l.length) :
    (l.drop j).take 1 = [l.getD j {}] := by
  rw [List.getD_eq_getElem l {} hj, List.drop_eq_getElem_cons hj]
  rfl

/-- Amended claim C3: for every Select with a non-empty OrderBy
(A, B, C, …), `addSeekPredicate` ANDs into `Where` the disjunction
whose children are an is-null leaf on A followed, for each prefix
length k = 1..n, by a conjunct equating the first k-1 order columns to
their `__cur` references and comparing the k-th with lesser-than when
its direction is exactly the plain `desc` and greater-than for every
other direction (`asc` and all four `nulls` variants); every leaf is a
`ValRef` on the `__cur` alias.  (`seekExpAmended` spells this shape; a
k = 1 conjunct is the bare comparison leaf.) -/
theorem c3_seek_predicate_amended (sel : Select) (hob : sel.orderBy ≠ []) :
    (Compiler.addSeekPredicate sel).whereE
      = some (setFilter sel.whereE (seekExpAmended sel.orderBy)) := by
  unfold Compiler.addSeekPredicate
  split
  · exact absurd (by assumption) hob
  · rename_i ob0 rest heq
    have hlen : sel.orderBy.length = rest.length + 1 := by rw [heq]; rfl
    have hrow0 : seekRow 0 sel.orderBy 0 = [cmpLeaf ob0] := by
      rw [seekRow_spec sel.orderBy 0 0 (le_refl 0), heq]
      simp
    have hd1 : seekDisjunct sel.orderBy 1 = cmpLeaf ob0 := by
      simp [seekDisjunct, heq]
    have houter : seekOuter sel.orderBy 0 sel.orderBy.length
        = (List.range sel.orderBy.length).map
            (fun j => seekDisjunct sel.orderBy (j + 1)) := by
      rw [hlen, seekOuter]
      rw [if_pos rfl]
      rw [seekOuter_ge_one sel.orderBy rest.length 1 (by omega)]
      rw [List.range_eq_range', List.range'_succ, List.map_cons]
      rw [hrow0]
      simp only [List.singleton_append, Nat.zero_add, hd1]
      congr 1
      refine List.map_congr_left ?_
      intro j hj
      obtain ⟨i, hik, hji⟩ := List.mem_range'.mp hj
      have hjlen : j < sel.orderBy.length := by omega
      rw [seekRow_spec sel.orderBy 0 j (by omega)]
      simp only [Nat.sub_zero]
      rw [drop_take_one sel.orderBy j hjlen]
      simp only [seekDisjunct, if_neg (show ¬ j + 1 = 1 by omega), Nat.add_sub_cancel]
      simp
    have hhead : (sel.orderBy.headD {}).col = ob0.col := by rw [heq]; rfl
    simp only [seekExpAmended, hhead, houter]

def c3col : DBColumn :=
  { schema := "public", table := "users", name := "name", typ := "text" }

/-- The claim's direction rule: greater-than when the direction is
ascending, lesser-than when it is descending (the `desc_nulls_*`
variants being descending directions). -/
def claimSeekOp (o : Order) : ExpOp :=
  if o = .OrderDesc ∨ o = .OrderDescNullsFirst ∨ o = .OrderDescNullsLast then
    .OpLesserThan
  else .OpGreaterThan

/-- The comparison leaf as the claim describes it. -/
def claimCmpLeaf (ob : OrderBy) : Exp :=
  mkCurExp (claimSeekOp ob.order) ob.col ob.col.name

/-- The k-th disjunct as the claim describes it. -/
def claimSeekDisjunct (obs : List OrderBy) (k : Nat) : Exp :=
  if k = 1 then claimCmpLeaf (obs.headD {})
  else mkNodeExp .OpAnd
    ((obs.take (k - 1)).map eqLeaf ++ [claimCmpLeaf (obs.getD (k - 1) {})])

/-- The seek disjunction exactly as claim C3 states it. -/
def claimSeekExp (obs : List OrderBy) : Exp :=
  mkNodeExp .OpOr (mkCurExp .OpIsNull (obs.headD {}).col "true"
    :: (List.range obs.length).map (fun j => claimSeekDisjunct obs (j + 1)))

/-- A cursor-paged forward select ordered by one `desc_nulls_first`
column. -/
def c3sel : Select :=
  { table := "users", orderBy := [{ col := c3col, order := .OrderDescNullsFirst }],
    paging := { typ := .PTForward, cursor := true } }

/-- Counterexample to C3 as stated: on a `desc_nulls_first` column —
a descending direction — the claim demands a lesser-than comparison,
but the source compares `Order == OrderDesc` only, so the generated
leaf uses greater-than and the generated `Where` differs from the
claim's expression. -/
theorem c3_seek_predicate_counterexample :
    c3sel.paging.cursor = true ∧ c3sel.paging.typ = .PTForward ∧
    ¬ ((Compiler.addSeekPredicate c3sel).whereE
        = some (setFilter c3sel.whereE (claimSeekExp c3sel.orderBy))) := by
  refine ⟨rfl, rfl, ?_⟩
  intro h
  have h1 : ((Compiler.addSeekPredicate c3sel).whereE.map
      (fun e => ((e.children.getD 1 newExp).op))) = some .OpGreaterThan := rfl
  rw [h] at h1
  have h2 : ((some (setFilter c3sel.whereE (claimSeekExp c3sel.orderBy))).map
      (fun e => ((e.children.getD 1 newExp).op))) = some .OpLesserThan := rfl
  rw [h2] at h1
  simp at h1

/-- A cursor-paged select on two columns, `desc` then `asc`. -/
def c3wsel : Select :=
  { table := "users",
    orderBy := [{ col := c3col, order := .OrderDesc },
      { col := { c3col with name := "id" }, order := .OrderAsc }],
    paging := { typ := .PTForward, cursor := true } }

/-- Witness for the amended C3 at a two-column order. -/
theorem c3_seek_predicate_amended_witness :
    (Compiler.addSeekPredicate c3wsel).whereE
      = some (setFilter c3wsel.whereE (seekExpAmended c3wsel.orderBy)) :=
  c3_seek_predicate_amended c3wsel (by simp [c3wsel])

/-! ## Shape lemmas for the select pipeline (towards C1, C2, C8) -/

theorem compileDirectiveSkip_pres (sel sel' : Select) (d : Directive)
    (h : Compiler.compileDirectiveSkip sel d = .ok sel') :
    sel'.id = sel.id ∧ sel'.parentID = sel.parentID := by
  unfold Compiler.compileDirectiveSkip at h
  repeat' split at h
  all_goals cases h
  exact ⟨rfl, rfl⟩

theorem compileDirectiveInclude_pres (sel sel' : Select) (d : Directive)
    (h : Compiler.compileDirectiveInclude sel d = .ok sel') :
    sel'.id = sel.id ∧ sel'.parentID = sel.parentID := by
  unfold Compiler.compileDirectiveInclude at h
  repeat' split at h
  all_goals cases h
  exact ⟨rfl, rfl⟩

theorem compileDirectiveThrough_pres (sel sel' : Select) (d : Directive)
    (h : Compiler.compileDirectiveThrough sel d = .ok sel') :
    sel'.id = sel.id ∧ sel'.parentID = sel.parentID := by
  unfold Compiler.compileDirectiveThrough at h
  repeat' split at h
  all_goals cases h
  exact ⟨rfl, rfl⟩

theorem compileDirective1_pres (sel sel' : Select) (d : Directive)
    (h : Compiler.compileDirective1 sel d = .ok sel') :
    sel'.id = sel.id ∧ sel'.parentID = sel.parentID := by
  unfold Compiler.compileDirective1 at h
  split at h
  · exact compileDirectiveSkip_pres sel sel' d h
  · exact compileDirectiveInclude_pres sel sel' d h
  · unfold Compiler.compileDirectiveNotRelated at h
    cases h
    exact ⟨rfl, rfl⟩
  · exact compileDirectiveThrough_pres sel sel' d h
  · cases h
    exact ⟨rfl, rfl⟩
  · cases h
    exact ⟨rfl, rfl⟩

theorem compileDirectives_pres (co : Compiler) :
    ∀ (dirs : List Directive) (sel sel' : Select),
      co.compileDirectives sel dirs = .ok sel' →
      sel'.id = sel.id ∧ sel'.parentID = sel.parentID := by
  intro dirs
  induction dirs with
  | nil =>
    intro sel sel' h
    simp only [Compiler.compileDirectives] at h
    cases h
    exact ⟨rfl, rfl⟩
  | cons d rest ih =>
    intro sel sel' h
    simp only [Compiler.compileDirectives] at h
    split at h
    · cases h
    · rename_i mid hmid
      obtain ⟨h1, h2⟩ := ih mid sel' h
      obtain ⟨g1, g2⟩ := compileDirective1_pres sel mid d hmid
      exact ⟨h1.trans g1, h2.trans g2⟩

theorem compileArgID_pres (sel sel' : Select) (arg : Arg)
    (h : Compiler.compileArgID sel arg = .ok sel') :
    sel'.id = sel.id ∧ sel'.parentID = sel.parentID := by
  unfold Compiler.compileArgID at h
  simp only [bind, Except.bind, pure, Except.pure] at h
  repeat' split at h
  all_goals cases h
  all_goals exact ⟨rfl, rfl⟩

theorem compileArgSearch_pres (co : Compiler) (sel sel' : Select) (arg : Arg)
    (h : co.compileArgSearch sel arg = .ok sel') :
    sel'.id = sel.id ∧ sel'.parentID = sel.parentID := by
  unfold Compiler.compileArgSearch at h
  repeat' split at h
  all_goals cases h
  all_goals simp [Select.addArg]

theorem compileArgWhere_pres (co : Compiler) (ti : DBTable) (sel sel' : Select)
    (arg : Arg) (role : String)
    (h : co.compileArgWhere ti sel arg role = .ok sel') :
    sel'.id = sel.id ∧ sel'.parentID = sel.parentID := by
  unfold Compiler.compileArgWhere at h
  simp only [bind, Except.bind, pure, Except.pure] at h
  repeat' split at h
  all_goals cases h
  all_goals exact ⟨rfl, rfl⟩

theorem compileArgOrderBy_pres (sel sel' : Select) (arg : Arg)
    (h : Compiler.compileArgOrderBy sel arg = .ok sel') :
    sel'.id = sel.id ∧ sel'.parentID = sel.parentID := by
  unfold Compiler.compileArgOrderBy at h
  split at h
  · cases h
  · dsimp only at h
    split at h
    · cases h
    · cases h
      exact ⟨rfl, rfl⟩

theorem distinctOnAdd_pres (co : Compiler) (sel sel' : Select) (cname : String)
    (h : co.distinctOnAdd sel cname = .ok sel') :
    sel'.id = sel.id ∧ sel'.parentID = sel.parentID := by
  unfold Compiler.distinctOnAdd at h
  repeat' split at h
  all_goals cases h
  all_goals exact ⟨rfl, rfl⟩

theorem distinctOnLoop_pres (co : Compiler) :
    ∀ (l : List Node) (sel sel' : Select),
      co.distinctOnLoop l sel = .ok sel' →
      sel'.id = sel.id ∧ sel'.parentID = sel.parentID := by
  intro l
  induction l with
  | nil =>
    intro sel sel' h
    simp only [Compiler.distinctOnLoop] at h
    cases h
    exact ⟨rfl, rfl⟩
  | cons cn rest ih =>
    intro sel sel' h
    simp only [Compiler.distinctOnLoop] at h
    split at h
    · rename_i mid hmid
      obtain ⟨h1, h2⟩ := ih mid sel' h
      obtain ⟨g1, g2⟩ := distinctOnAdd_pres co sel mid cn.val hmid
      exact ⟨h1.trans g1, h2.trans g2⟩
    · cases h

theorem compileArgDistinctOn_pres (co : Compiler) (sel sel' : Select) (arg : Arg)
    (h : co.compileArgDistinctOn sel arg = .ok sel') :
    sel'.id = sel.id ∧ sel'.parentID = sel.parentID := by
  unfold Compiler.compileArgDistinctOn at h
  dsimp only at h
  split at h
  · cases h
  · split at h
    · cases h
    · rename_i sel₁ hmid
      obtain ⟨h1, h2⟩ := distinctOnLoop_pres co arg.val.children sel₁ sel' h
      split at hmid
      · obtain ⟨g1, g2⟩ := distinctOnAdd_pres co sel sel₁ arg.val.val hmid
        exact ⟨h1.trans g1, h2.trans g2⟩
      · cases hmid
        exact ⟨h1, h2⟩

theorem compileArgLimit_pres (co : Compiler) (sel sel' : Select) (arg : Arg)
    (h : co.compileArgLimit sel arg = .ok sel') :
    sel'.id = sel.id ∧ sel'.parentID = sel.parentID := by
  unfold Compiler.compileArgLimit at h
  dsimp only at h
  repeat' split at h
  all_goals cases h
  all_goals exact ⟨rfl, rfl⟩

theorem compileArgOffset_pres (co : Compiler) (sel sel' : Select) (arg : Arg)
    (h : co.compileArgOffset sel arg = .ok sel') :
    sel'.id = sel.id ∧ sel'.parentID = sel.parentID := by
  unfold Compiler.compileArgOffset at h
  dsimp only at h
  repeat' split at h
  all_goals cases h
  all_goals exact ⟨rfl, rfl⟩

theorem compileArgFirstLast_pres (co : Compiler) (sel sel' : Select) (arg : Arg)
    (order : Order) (h : co.compileArgFirstLast sel arg order = .ok sel') :
    sel'.id = sel.id ∧ sel'.parentID = sel.parentID := by
  unfold Compiler.compileArgFirstLast at h
  simp only [bind, Except.bind, pure, Except.pure] at h
  split at h
  · cases h
  · rename_i sel₁ hmid
    obtain ⟨g1, g2⟩ := compileArgLimit_pres co sel sel₁ arg hmid
    split at h
    all_goals cases h
    all_goals exact ⟨g1, g2⟩

theorem compileArgAfterBefore_pres (sel sel' : Select) (arg : Arg) (pt : PagingType)
    (h : Compiler.compileArgAfterBefore sel arg pt = .ok sel') :
    sel'.id = sel.id ∧ sel'.parentID = sel.parentID := by
  unfold Compiler.compileArgAfterBefore at h
  dsimp only at h
  repeat' split at h
  all_goals cases h
  all_goals exact ⟨rfl, rfl⟩

theorem compileArgFind_pres (sel sel' : Select) (arg : Arg)
    (h : Compiler.compileArgFind sel arg = .ok sel') :
    sel'.id = sel.id ∧ sel'.parentID = sel.parentID := by
  unfold Compiler.compileArgFind at h
  repeat' split at h
  all_goals cases h
  all_goals simp [Select.addArg]

theorem compileArg1_pres (co : Compiler) (sel sel' : Select) (arg : Arg)
    (role : String) (h : co.compileArg1 sel arg role = .ok sel') :
    sel'.id = sel.id ∧ sel'.parentID = sel.parentID := by
  unfold Compiler.compileArg1 at h
  split at h
  · exact compileArgID_pres sel sel' arg h
  · exact compileArgSearch_pres co sel sel' arg h
  · exact compileArgWhere_pres co sel.ti sel sel' arg role h
  · exact compileArgOrderBy_pres sel sel' arg h
  · exact compileArgOrderBy_pres sel sel' arg h
  · exact compileArgOrderBy_pres sel sel' arg h
  · exact compileArgDistinctOn_pres co sel sel' arg h
  · exact compileArgDistinctOn_pres co sel sel' arg h
  · exact compileArgLimit_pres co sel sel' arg h
  · exact compileArgOffset_pres co sel sel' arg h
  · exact compileArgFirstLast_pres co sel sel' arg .OrderAsc h
  · exact compileArgFirstLast_pres co sel sel' arg .OrderDesc h
  · exact compileArgAfterBefore_pres sel sel' arg .PTForward h
  · exact compileArgAfterBefore_pres sel sel' arg .PTBackward h
  · exact compileArgFind_pres sel sel' arg h
  · cases h
    exact ⟨rfl, rfl⟩

theorem compileArgs_pres (co : Compiler) (role : String) :
    ∀ (args : List Arg) (sel sel' : Select),
      co.compileArgs sel args role = .ok sel' →
      sel'.id = sel.id ∧ sel'.parentID = sel.parentID := by
  intro args
  induction args with
  | nil =>
    intro sel sel' h
    simp only [Compiler.compileArgs] at h
    cases h
    exact ⟨rfl, rfl⟩
  | cons arg rest ih =>
    intro sel sel' h
    simp only [Compiler.compileArgs] at h
    split at h
    · cases h
    · rename_i mid hmid
      obtain ⟨h1, h2⟩ := ih mid sel' h
      obtain ⟨g1, g2⟩ := compileArg1_pres co sel mid arg role hmid
      exact ⟨h1.trans g1, h2.trans g2⟩

theorem isFunction_pres (co : Compiler) (sel sel' : Select) (fname : String)
    (fn : Function) (fnExp : String) (agg : Bool)
    (h : co.isFunction sel fname = .ok (sel', fn, fnExp, agg)) :
    sel'.id = sel.id ∧ sel'.parentID = sel.parentID := by
  unfold Compiler.isFunction at h
  dsimp only at h
  repeat' split at h
  all_goals cases h
  all_goals exact ⟨rfl, rfl⟩

theorem compileColumnsLoop_spec (co : Compiler) (op : Operation) :
    ∀ (fs : List Field) (s : Select) (pushed : List Nat) (s' : Select)
      (pushed' : List Nat),
      co.compileColumnsLoop op fs s pushed = .ok (s', pushed') →
      s'.id = s.id ∧ s'.parentID = s.parentID ∧
        ∀ v ∈ pushed', v ∈ pushed ∨ ∃ f ∈ fs, v = encodeVal s.id.toNat f.id := by
  intro fs
  induction fs with
  | nil =>
    intro s pushed s' pushed' h
    simp only [Compiler.compileColumnsLoop] at h
    cases h
    exact ⟨rfl, rfl, fun v hv => Or.inl hv⟩
  | cons f rest ih =>
    intro s pushed s' pushed' h
    simp only [Compiler.compileColumnsLoop] at h
    split at h
    · obtain ⟨h1, h2, h3⟩ := ih _ _ _ _ h
      refine ⟨h1, h2, fun v hv => ?_⟩
      rcases h3 v hv with hin | ⟨g, hg, hgv⟩
      · rcases List.mem_append.mp hin with hl | hr
        · exact Or.inl hl
        · exact Or.inr ⟨f, by simp, by simpa using hr⟩
      · exact Or.inr ⟨g, by simp [hg], hgv⟩
    · split at h
      · cases h
      · rename_i s2 fn fnExp agg heqf
        obtain ⟨g1, g2⟩ := isFunction_pres co s s2 f.name fn fnExp agg heqf
        have hrec :
            ∀ s3 : Select, s3.id = s.id → s3.parentID = s.parentID →
              co.compileColumnsLoop op rest s3 pushed = .ok (s', pushed') →
              s'.id = s.id ∧ s'.parentID = s.parentID ∧
                ∀ v ∈ pushed', v ∈ pushed ∨ ∃ g ∈ f :: rest, v = encodeVal s.id.toNat g.id := by
          intro s3 e1 e2 hh
          obtain ⟨h1, h2, h3⟩ := ih _ _ _ _ hh
          refine ⟨h1.trans e1, h2.trans e2, fun v hv => ?_⟩
          rcases h3 v hv with hin | ⟨g, hg, hgv⟩
          · exact Or.inl hin
          · exact Or.inr ⟨g, by simp [hg], by rw [hgv, e1]⟩
        repeat' split at h
        all_goals
          first
          | cases h
          | exact hrec _ g1 g2 h
          | exact hrec _ (by simpa using g1) (by simpa using g2) h

theorem setLimit_id (co : Compiler) (tr : trval) (qc : QCode) (sel : Select) :
    (co.setLimit tr qc sel).id = sel.id := by
  unfold Compiler.setLimit
  repeat' split
  all_goals rfl

theorem setLimit_parentID (co : Compiler) (tr : trval) (qc : QCode) (sel : Select) :
    (co.setLimit tr qc sel).parentID = sel.parentID := by
  unfold Compiler.setLimit
  repeat' split
  all_goals rfl

theorem setSingular_id (co : Compiler) (fieldName : String) (sel : Select) :
    (co.setSingular fieldName sel).id = sel.id := by
  unfold Compiler.setSingular
  dsimp only
  repeat' split
  all_goals rfl

theorem setSingular_parentID (co : Compiler) (fieldName : String) (sel : Select) :
    (co.setSingular fieldName sel).parentID = sel.parentID := by
  unfold Compiler.setSingular
  dsimp only
  repeat' split
  all_goals rfl

theorem orderByIDCol_pres (sel sel' : Select)
    (h : Compiler.orderByIDCol sel = .ok sel') :
    sel'.id = sel.id ∧ sel'.parentID = sel.parentID := by
  unfold Compiler.orderByIDCol at h
  repeat' split at h
  all_goals cases h
  all_goals exact ⟨rfl, rfl⟩

theorem addSeekPredicate_id (sel : Select) :
    (Compiler.addSeekPredicate sel).id = sel.id := by
  unfold Compiler.addSeekPredicate
  split
  all_goals rfl

theorem addSeekPredicate_parentID (sel : Select) :
    (Compiler.addSeekPredicate sel).parentID = sel.parentID := by
  unfold Compiler.addSeekPredicate
  split
  all_goals rfl


theorem relLinkParent_shape (op : Operation) (qc : QCode) (sel : Select) (field : Field)
    (qc' : QCode) (pselO : Option Select) (pfO : Option Field)
    (h : relLinkParent op qc sel field = .ok (qc', pselO, pfO)) :
    qc'.typ = qc.typ ∧ qc'.styp = qc.styp ∧ qc'.remotes = qc.remotes ∧
    ((sel.parentID = -1 ∧ qc'.selects = qc.selects) ∨
     (sel.parentID ≠ -1 ∧ ∃ psel, qc.selects[sel.parentID.toNat]? = some psel ∧
        qc'.selects = qc.selects.set sel.parentID.toNat
          { psel with children := psel.children ++ [sel.id] })) := by
  unfold relLinkParent at h
  dsimp only at h
  split at h
  · cases h
    rename_i hroot
    exact ⟨rfl, rfl, rfl, .inl ⟨hroot, rfl⟩⟩
  · rename_i hnroot
    split at h
    · cases h
    · rename_i psel hlook
      split at h
      · split at h
        · cases h
        · rename_i pf hpf
          cases h
          exact ⟨rfl, rfl, rfl, .inr ⟨hnroot, psel, hlook, rfl⟩⟩
      · cases h

theorem relFieldType_pres (op : Operation) (sel : Select) (field : Field)
    (pselO : Option Select) (pfO : Option Field)
    (sel' : Select) (childF : Field) (pfO' : Option Field)
    (h : relFieldType op sel field pselO pfO = .ok (sel', childF, pfO')) :
    sel'.id = sel.id ∧ sel'.parentID = sel.parentID ∧ sel'.rel = sel.rel := by
  unfold relFieldType at h
  repeat' split at h
  all_goals cases h
  all_goals exact ⟨rfl, rfl, rfl⟩

theorem relFindPath_pres (co : Compiler) (sel : Select) (childF : Field)
    (pfO : Option Field) (sel' : Select)
    (h : co.relFindPath sel childF pfO = .ok sel') :
    sel'.id = sel.id ∧ sel'.parentID = sel.parentID := by
  unfold Compiler.relFindPath at h
  repeat' split at h
  all_goals cases h
  all_goals exact ⟨rfl, rfl⟩

theorem relBindTable_pres (co : Compiler) (sel : Select) (field : Field) (sel' : Select)
    (h : co.relBindTable sel field = .ok sel') :
    sel'.id = sel.id ∧ sel'.parentID = sel.parentID := by
  unfold Compiler.relBindTable at h
  repeat' split at h
  all_goals cases h
  all_goals exact ⟨rfl, rfl⟩

theorem addRelInfo_shape (co : Compiler) (op : Operation) (qc : QCode)
    (sel : Select) (field : Field) (qc' : QCode) (sel' : Select)
    (h : co.addRelInfo op qc sel field = .ok (qc', sel')) :
    sel'.id = sel.id ∧ sel'.parentID = sel.parentID ∧
    qc'.typ = qc.typ ∧ qc'.styp = qc.styp ∧
    ((sel.parentID = -1 ∧ qc'.selects = qc.selects) ∨
     (sel.parentID ≠ -1 ∧ ∃ psel, qc.selects[sel.parentID.toNat]? = some psel ∧
        qc'.selects = qc.selects.set sel.parentID.toNat
          { psel with children := psel.children ++ [sel.id] })) := by
  unfold Compiler.addRelInfo at h
  split at h
  · cases h
  · rename_i qc1 pselO pfO hlp
    obtain ⟨htyp, hstyp, _, hsels⟩ := relLinkParent_shape op qc sel field qc1 pselO pfO hlp
    split at h
    · cases h
    · rename_i sel1 childF pgO hft
      obtain ⟨hid1, hpid1, _⟩ := relFieldType_pres op sel field pselO pfO sel1 childF pgO hft
      split at h
      · cases h
        exact ⟨hid1, hpid1, htyp, hstyp, by
          rcases hsels with ⟨hc, he⟩ | ⟨hc, psel, hl, he⟩
          · exact .inl ⟨hc, he⟩
          · exact .inr ⟨hc, psel, hl, he⟩⟩
      · split at h
        · cases h
        · rename_i sel2 hfp
          obtain ⟨hid2, hpid2⟩ := relFindPath_pres co sel1 childF pgO sel2 hfp
          split at h
          · cases h
          · rename_i sel4 hbt
            obtain ⟨hid4, hpid4⟩ := relBindTable_pres co sel2 field sel4 hbt
            split at h
            · cases h
              refine ⟨?_, ?_, htyp, hstyp, ?_⟩
              · show sel4.id = sel.id
                rw [hid4, hid2, hid1]
              · show sel4.parentID = sel.parentID
                rw [hpid4, hpid2, hpid1]
              · rcases hsels with ⟨hc, he⟩ | ⟨hc, psel, hl, he⟩
                · exact .inl ⟨hc, he⟩
                · exact .inr ⟨hc, psel, hl, he⟩
            · cases h
              refine ⟨?_, ?_, htyp, hstyp, ?_⟩
              · rw [setSingular_id, hid4, hid2, hid1]
              · rw [setSingular_parentID, hpid4, hpid2, hpid1]
              · rcases hsels with ⟨hc, he⟩ | ⟨hc, psel, hl, he⟩
                · exact .inl ⟨hc, he⟩
                · exact .inr ⟨hc, psel, hl, he⟩

theorem compileStep_spec (co : Compiler) (role : String) (op : Operation)
    (field : Field) (pidRaw : Nat) (id : Int) (qc : QCode)
    (qcr : QCode) (pushed : List Nat)
    (h : co.compileStep role op field pidRaw id qc = .ok (qcr, pushed)) :
    qcr.typ = qc.typ ∧ qcr.styp = qc.styp ∧
    ∃ sel8 : Select,
      sel8.id = id ∧
      sel8.parentID = (if field.parentID = -1 then (-1 : Int) else (pidRaw : Int)) ∧
      ((sel8.parentID = -1 ∧ qcr.selects = qc.selects ++ [sel8]) ∨
       (sel8.parentID ≠ -1 ∧ ∃ psel, qc.selects[sel8.parentID.toNat]? = some psel ∧
          qcr.selects = (qc.selects.set sel8.parentID.toNat
            { psel with children := psel.children ++ [sel8.id] }) ++ [sel8])) ∧
      (∀ v ∈ pushed, ∃ f ∈ op.fields, f.parentID = (field.id : Int) ∧
        v = encodeVal id.toNat f.id) := by
  unfold Compiler.compileStep at h
  dsimp only at h
  split at h
  · cases h
  · rename_i sel1 hdir
    obtain ⟨hid1, hpid1⟩ := compileDirectives_pres co field.directives _ sel1 hdir
    split at h
    · cases h
    · rename_i qc1 sel2 hrel
      obtain ⟨hid2, hpid2, htyp, hstyp, hsels⟩ :=
        addRelInfo_shape co op qc sel1 field qc1 sel2 hrel
      split at h
      · cases h
      · rename_i sel3 hsk
        have hsel3 : sel3.id = sel2.id ∧ sel3.parentID = sel2.parentID := by
          split at hsk
          · cases hsk; exact ⟨rfl, rfl⟩
          · split at hsk
            · cases hsk
            · cases hsk; exact ⟨rfl, rfl⟩
        split at h
        · cases h
        · rename_i sel5 hargs
          obtain ⟨hid5, hpid5⟩ := compileArgs_pres co role field.args _ sel5 hargs
          split at h
          · cases h
          · rename_i sel6 pushed0 hcols
            unfold Compiler.compileColumns at hcols
            obtain ⟨hid6, hpid6, hpush⟩ :=
              compileColumnsLoop_spec co op (op.childFields field) _ [] sel6 pushed0 hcols
            split at h
            · cases h
            · rename_i sel8 hcur
              have hsel8 : sel8.id = sel6.id ∧ sel8.parentID = sel6.parentID := by
                split at hcur
                · split at hcur
                  · cases hcur
                  · rename_i s1 hob
                    obtain ⟨ha, hb⟩ := orderByIDCol_pres _ s1 hob
                    cases hcur
                    split
                    · exact ⟨(addSeekPredicate_id s1).trans ha,
                        (addSeekPredicate_parentID s1).trans hb⟩
                    · exact ⟨ha, hb⟩
                · cases hcur; exact ⟨rfl, rfl⟩
              split at h
              · cases h
              · cases h
                have hi5 : sel5.id = id := by
                  rw [hid5, setLimit_id, hsel3.1, hid2, hid1]
                have hp5 : sel5.parentID =
                    (if field.parentID = -1 then (-1 : Int) else (pidRaw : Int)) := by
                  rw [hpid5, setLimit_parentID, hsel3.2, hpid2, hpid1]
                have hi8 : sel8.id = id := by rw [hsel8.1, hid6, hi5]
                have hp8 : sel8.parentID =
                    (if field.parentID = -1 then (-1 : Int) else (pidRaw : Int)) := by
                  rw [hsel8.2, hpid6, hp5]
                have hi81 : sel8.id = sel1.id := by rw [hi8]; exact hid1.symm
                have hp81 : sel8.parentID = sel1.parentID := by
                  rw [hp8]; exact hpid1.symm
                refine ⟨htyp, hstyp, sel8, hi8, hp8, ?_, ?_⟩
                · rw [hp81, hi81]
                  rcases hsels with ⟨hc, he⟩ | ⟨hc, psel, hl, he⟩
                  · exact .inl ⟨hc, by show qc1.selects ++ [sel8] = _; rw [he]⟩
                  · exact .inr ⟨hc, psel, hl, by show qc1.selects ++ [sel8] = _; rw [he]⟩
                · intro v hv
                  rcases hpush v hv with hvnil | ⟨f, hf, hvf⟩
                  · cases hvnil
                  · refine ⟨f, (List.mem_filter.mp hf).1,
                      of_decide_eq_true (List.mem_filter.mp hf).2, ?_⟩
                    rw [hvf, hi5]

theorem compileLoop_typ (co : Compiler) (role : String) (op : Operation) :
    ∀ (fuel : Nat) (st : List Nat) (id : Int) (qc qc' : QCode),
      co.compileLoop role op fuel st id qc = .ok qc' →
      qc'.typ = qc.typ ∧ qc'.styp = qc.styp := by
  intro fuel
  induction fuel with
  | zero =>
    intro st id qc qc' h
    simp only [Compiler.compileLoop] at h
    cases h
  | succ fuel ih =>
    intro st id qc qc' h
    cases st with
    | nil =>
      simp only [Compiler.compileLoop] at h
      split at h
      · cases h
      · cases h; exact ⟨rfl, rfl⟩
    | cons val rest =>
      simp only [Compiler.compileLoop] at h
      split at h
      · cases h
      · split at h
        · cases h
        · rename_i field hfield
          split at h
          · exact ih rest id qc qc' h
          · split at h
            · cases h
            · rename_i qc1 pushed hstep
              obtain ⟨ht, hs, -⟩ :=
                compileStep_spec co role op field _ id qc qc1 pushed hstep
              obtain ⟨ht2, hs2⟩ := ih _ _ _ _ h
              exact ⟨ht2.trans ht, hs2.trans hs⟩

theorem setMutationType_skip (qc : QCode) (a : Arg) (rest : List Arg)
    (h1 : a.name ≠ "insert") (h2 : a.name ≠ "update")
    (h3 : a.name ≠ "upsert") (h4 : a.name ≠ "delete") :
    setMutationType qc (a :: rest) = setMutationType qc rest := by
  simp only [setMutationType]

theorem setMutationType_delete_false (qc : QCode) (d : Arg) (rest : List Arg)
    (hd : d.name = "delete") (ht : d.val.typ = .NodeBool) (hv : d.val.val = "false") :
    ∀ pre : List Arg,
      (∀ a ∈ pre, a.name ≠ "insert" ∧ a.name ≠ "update" ∧
        a.name ≠ "upsert" ∧ a.name ≠ "delete") →
      setMutationType qc (pre ++ d :: rest) =
        .ok { qc with styp := .QTDelete, typ := .QTQuery } := by
  intro pre
  induction pre with
  | nil =>
    intro _
    rw [List.nil_append]
    simp only [setMutationType]
    rw [hd]
    simp [ht, hv]
  | cons a pre ih =>
    intro hall
    obtain ⟨h1, h2, h3, h4⟩ := hall a (by simp)
    rw [List.cons_append, setMutationType_skip qc a _ h1 h2 h3 h4]
    exact ih (fun b hb => hall b (List.mem_cons_of_mem _ hb))

theorem encodeVal_mod (a b : Nat) (hb : b < 65536) : encodeVal a b % 65536 = b := by
  unfold encodeVal
  omega

theorem encodeVal_div_le (a b : Nat) (hb : b < 65536) :
    (encodeVal a b / 65536) % 65536 ≤ a := by
  unfold encodeVal
  have h1 : (a * 65536 + b) / 65536 = a := by omega
  rw [h1]
  exact Nat.mod_le a 65536

theorem encodeRootVal_mod (b : Nat) (hb : b < 65536) : encodeRootVal b % 65536 = b := by
  unfold encodeRootVal encodeVal
  omega

theorem selinv_append_root (l : List Select) (news : Select)
    (hE : ∀ sel ∈ l, sel.parentID ≠ -1 →
      0 ≤ sel.parentID ∧ sel.parentID < sel.id ∧
      ∃ psel, l[sel.parentID.toNat]? = some psel ∧ sel.id ∈ psel.children)
    (hroot : news.parentID = -1) :
    ∀ sel ∈ l ++ [news], sel.parentID ≠ -1 →
      0 ≤ sel.parentID ∧ sel.parentID < sel.id ∧
      ∃ psel, (l ++ [news])[sel.parentID.toNat]? = some psel ∧
        sel.id ∈ psel.children := by
  intro sel hmem hne
  rcases List.mem_append.mp hmem with hl | hr
  · obtain ⟨h0, hlt, psel, hlook, hmem2⟩ := hE sel hl hne
    have hplen : sel.parentID.toNat < l.length :=
      (List.getElem?_eq_some.mp hlook).1
    exact ⟨h0, hlt, psel, by rw [List.getElem?_append_left hplen]; exact hlook, hmem2⟩
  · rw [List.mem_singleton.mp hr] at hne
    exact absurd hroot hne

theorem selinv_append_child (l : List Select) (news psel0 : Select) (p : Nat)
    (hE : ∀ sel ∈ l, sel.parentID ≠ -1 →
      0 ≤ sel.parentID ∧ sel.parentID < sel.id ∧
      ∃ psel, l[sel.parentID.toNat]? = some psel ∧ sel.id ∈ psel.children)
    (hlook0 : l[p]? = some psel0)
    (hpn : news.parentID = (p : Int))
    (hlt : news.parentID < news.id) :
    ∀ sel ∈ (l.set p { psel0 with children := psel0.children ++ [news.id] }) ++ [news],
      sel.parentID ≠ -1 →
      0 ≤ sel.parentID ∧ sel.parentID < sel.id ∧
      ∃ psel,
        ((l.set p { psel0 with children := psel0.children ++ [news.id] })
          ++ [news])[sel.parentID.toNat]? = some psel ∧
        sel.id ∈ psel.children := by
  intro sel hmem hne
  have hplen : p < l.length := (List.getElem?_eq_some.mp hlook0).1
  have hlook' : ∀ (q : Nat) (ps : Select), l[q]? = some ps →
      ∃ ps', ((l.set p { psel0 with children := psel0.children ++ [news.id] })
        ++ [news])[q]? = some ps' ∧ ∀ x ∈ ps.children, x ∈ ps'.children := by
    intro q ps hq
    have hqlen : q < l.length := (List.getElem?_eq_some.mp hq).1
    have hqlen' : q < (l.set p { psel0 with children := psel0.children ++ [news.id] }).length := by
      rw [List.length_set]; exact hqlen
    by_cases hqp : q = p
    · subst hqp
      have hps : ps = psel0 := by
        have := hq.symm.trans hlook0
        exact Option.some.inj this
      refine ⟨{ psel0 with children := psel0.children ++ [news.id] }, ?_, ?_⟩
      · rw [List.getElem?_append_left hqlen', List.getElem?_set_self hqlen]
      · intro x hx
        rw [hps] at hx
        exact List.mem_append_left _ hx
    · refine ⟨ps, ?_, fun x hx => hx⟩
      rw [List.getElem?_append_left hqlen', List.getElem?_set_ne (fun hh => hqp hh.symm)]
      exact hq
  rcases List.mem_append.mp hmem with hl | hr
  · rcases List.mem_or_eq_of_mem_set hl with hold | hpsel
    · obtain ⟨h0, hlt2, psel, hlook, hmem2⟩ := hE sel hold hne
      obtain ⟨ps', hlook2, hsub⟩ := hlook' _ _ hlook
      exact ⟨h0, hlt2, ps', hlook2, hsub _ hmem2⟩
    · subst hpsel
      have hmem0 : psel0 ∈ l := List.mem_iff_getElem?.mpr ⟨p, hlook0⟩
      have hne0 : psel0.parentID ≠ -1 := hne
      obtain ⟨h0, hlt2, psel, hlook, hmem2⟩ := hE psel0 hmem0 hne0
      obtain ⟨ps', hlook2, hsub⟩ := hlook' _ _ hlook
      exact ⟨h0, hlt2, ps', hlook2, hsub _ hmem2⟩
  · rw [List.mem_singleton.mp hr]
    refine ⟨by rw [hpn]; exact Int.ofNat_nonneg p, hlt, ?_⟩
    refine ⟨{ psel0 with children := psel0.children ++ [news.id] }, ?_, ?_⟩
    · have hptn : news.parentID.toNat = p := by rw [hpn]; exact Int.toNat_natCast p
      rw [hptn]
      have hplen' : p < (l.set p { psel0 with children := psel0.children ++ [news.id] }).length := by
        rw [List.length_set]; exact hplen
      rw [List.getElem?_append_left hplen', List.getElem?_set_self hplen]
    · exact List.mem_append_right _ (List.mem_singleton.mpr rfl)

theorem compileLoop_length (co : Compiler) (role : String) (op : Operation) :
    ∀ (fuel : Nat) (st : List Nat) (id : Int) (qc qc' : QCode),
      qc.selects.length = id.toNat → 0 ≤ id → id ≤ 30 →
      co.compileLoop role op fuel st id qc = .ok qc' →
      qc'.selects.length ≤ 30 := by
  intro fuel
  induction fuel with
  | zero =>
    intro st id qc qc' _ _ _ h
    simp only [Compiler.compileLoop] at h
    cases h
  | succ fuel ih =>
    intro st id qc qc' hlen hpos hle h
    cases st with
    | nil =>
      simp only [Compiler.compileLoop] at h
      split at h
      · cases h
      · cases h
        rw [hlen]
        omega
    | cons val rest =>
      simp only [Compiler.compileLoop] at h
      split at h
      · cases h
      · rename_i hlt
        split at h
        · cases h
        · rename_i field hfield
          split at h
          · exact ih rest id qc qc' hlen hpos hle h
          · split at h
            · cases h
            · rename_i qc1 pushed hstep
              obtain ⟨-, -, sel8, -, -, hdisj, -⟩ :=
                compileStep_spec co role op field _ id qc qc1 pushed hstep
              have hlen1 : qc1.selects.length = (id + 1).toNat := by
                rcases hdisj with ⟨-, he⟩ | ⟨-, psel, -, he⟩
                · rw [he, List.length_append, List.length_cons, List.length_nil, hlen]
                  omega
                · rw [he, List.length_append, List.length_set, List.length_cons,
                    List.length_nil, hlen]
                  omega
              exact ih _ _ _ _ hlen1 (by omega) (by omega) h

theorem compileLoop_parent_invariant (co : Compiler) (role : String) (op : Operation)
    (hwf : ∀ f ∈ op.fields, op.fields[f.id]? = some f ∧ f.id < 65536) :
    ∀ (fuel : Nat) (st : List Nat) (id : Int) (qc qc' : QCode),
      qc.selects.length = id.toNat → 0 ≤ id →
      (∀ v ∈ st, ∃ f, op.fields[v % 65536]? = some f ∧
        (f.parentID = -1 ∨ (v / 65536) % 65536 < id.toNat)) →
      (∀ sel ∈ qc.selects, sel.parentID ≠ -1 →
        0 ≤ sel.parentID ∧ sel.parentID < sel.id ∧
        ∃ psel, qc.selects[sel.parentID.toNat]? = some psel ∧ sel.id ∈ psel.children) →
      co.compileLoop role op fuel st id qc = .ok qc' →
      (∀ sel ∈ qc'.selects, sel.parentID ≠ -1 →
        0 ≤ sel.parentID ∧ sel.parentID < sel.id ∧
        ∃ psel, qc'.selects[sel.parentID.toNat]? = some psel ∧ sel.id ∈ psel.children) := by
  intro fuel
  induction fuel with
  | zero =>
    intro st id qc qc' _ _ _ _ h
    simp only [Compiler.compileLoop] at h
    cases h
  | succ fuel ih =>
    intro st id qc qc' hlen hpos hst hE h
    cases st with
    | nil =>
      simp only [Compiler.compileLoop] at h
      split at h
      · cases h
      · cases h
        exact hE
    | cons val rest =>
      simp only [Compiler.compileLoop] at h
      split at h
      · cases h
      · rename_i hcap
        split at h
        · cases h
        · rename_i field hfield
          split at h
          · exact ih rest id qc qc' hlen hpos
              (fun v hv => hst v (List.mem_cons_of_mem _ hv)) hE h
          · split at h
            · cases h
            · rename_i qc1 pushed hstep
              obtain ⟨-, -, sel8, hsid, hspid, hdisj, hpushed⟩ :=
                compileStep_spec co role op field _ id qc qc1 pushed hstep
              have hlen1 : qc1.selects.length = (id + 1).toNat := by
                rcases hdisj with ⟨-, he⟩ | ⟨-, psel, -, he⟩
                · rw [he, List.length_append, List.length_cons, List.length_nil, hlen]
                  omega
                · rw [he, List.length_append, List.length_set, List.length_cons,
                    List.length_nil, hlen]
                  omega
              have hE1 : ∀ sel ∈ qc1.selects, sel.parentID ≠ -1 →
                  0 ≤ sel.parentID ∧ sel.parentID < sel.id ∧
                  ∃ psel, qc1.selects[sel.parentID.toNat]? = some psel ∧
                    sel.id ∈ psel.children := by
                rcases hdisj with ⟨hroot, he⟩ | ⟨hne8, psel0, hlook0, he⟩
                · rw [he]
                  exact selinv_append_root qc.selects sel8 hE hroot
                · have hfp : field.parentID ≠ -1 := by
                    intro hc
                    rw [hc] at hspid
                    simp at hspid
                    exact hne8 hspid
                  obtain ⟨f0, hf0look, hf0⟩ := hst val (List.mem_cons_self val rest)
                  have hf0eq : f0 = field := by
                    have := hf0look.symm.trans hfield
                    exact Option.some.inj this
                  have hpidlt : (val / 65536) % 65536 < id.toNat := by
                    rcases hf0 with hcase | hcase
                    · rw [hf0eq] at hcase
                      exact absurd hcase hfp
                    · exact hcase
                  have hspid' : sel8.parentID = (((val / 65536) % 65536 : Nat) : Int) := by
                    rw [hspid, if_neg hfp]
                  have hlt8 : sel8.parentID < sel8.id := by
                    rw [hspid', hsid]
                    omega
                  rw [he]
                  have hptn : sel8.parentID.toNat = (val / 65536) % 65536 := by
                    rw [hspid']
                    exact Int.toNat_natCast _
                  rw [hptn] at hlook0 ⊢
                  exact selinv_append_child qc.selects sel8 psel0
                    ((val / 65536) % 65536) hE hlook0 hspid' hlt8
              have hst1 : ∀ v ∈ pushed.reverse ++ rest,
                  ∃ f, op.fields[v % 65536]? = some f ∧
                  (f.parentID = -1 ∨ (v / 65536) % 65536 < (id + 1).toNat) := by
                intro v hv
                rcases List.mem_append.mp hv with hp | hr
                · obtain ⟨f, hfmem, -, hvenc⟩ := hpushed v (List.mem_reverse.mp hp)
                  obtain ⟨hflook, hfsmall⟩ := hwf f hfmem
                  refine ⟨f, ?_, Or.inr ?_⟩
                  · rw [hvenc, encodeVal_mod id.toNat f.id hfsmall]
                    exact hflook
                  · rw [hvenc]
                    have := encodeVal_div_le id.toNat f.id hfsmall
                    omega
                · obtain ⟨f, hflook, hfc⟩ := hst v (List.mem_cons_of_mem _ hr)
                  refine ⟨f, hflook, ?_⟩
                  rcases hfc with hc | hc
                  · exact Or.inl hc
                  · exact Or.inr (by omega)
              exact ih _ _ _ _ hlen1 (by omega) hst1 hE1 h

theorem rootStack_ok (op : Operation)
    (hwf : ∀ f ∈ op.fields, op.fields[f.id]? = some f ∧ f.id < 65536) :
    ∀ (fs : List Field) (acc : List Nat),
      (∀ f ∈ fs, f ∈ op.fields) →
      (∀ v ∈ acc, ∃ f, op.fields[v % 65536]? = some f ∧ f.parentID = -1) →
      ∀ v ∈ fs.foldl
        (fun acc f => if f.parentID = -1 then encodeRootVal f.id :: acc else acc) acc,
        ∃ f, op.fields[v % 65536]? = some f ∧ f.parentID = -1 := by
  intro fs
  induction fs with
  | nil =>
    intro acc _ hacc v hv
    exact hacc v hv
  | cons f fs ih =>
    intro acc hmem hacc v hv
    simp only [List.foldl_cons] at hv
    refine ih _ (fun g hg => hmem g (List.mem_cons_of_mem _ hg)) ?_ v hv
    intro w hw
    by_cases hf : f.parentID = -1
    · rw [if_pos hf] at hw
      rcases List.mem_cons.mp hw with hw1 | hw2
      · obtain ⟨hlook, hsmall⟩ := hwf f (hmem f (List.mem_cons_self f fs))
        subst hw1
        rw [encodeRootVal_mod f.id hsmall]
        exact ⟨f, hlook, hf⟩
      · exact hacc w hw2
    · rw [if_neg hf] at hw
      exact hacc w hw

theorem fields_wf (op : Operation)
    (hids : ∀ (j : Nat) (hj : j < op.fields.length), (op.fields[j]).id = j)
    (hlen : op.fields.length ≤ 65535) :
    ∀ f ∈ op.fields, op.fields[f.id]? = some f ∧ f.id < 65536 := by
  intro f hf
  obtain ⟨j, hj, hje⟩ := List.mem_iff_getElem.mp hf
  have hid : f.id = j := by rw [← hje]; exact hids j hj
  constructor
  · rw [hid, List.getElem?_eq_getElem hj, hje]
  · omega

/-- Claim C1: every successfully compiled QCode has at most 30 selects,
and a select loop that still has work queued once 30 selects exist
(i.e. a query that would allocate a 31st select) fails with exactly
"selector limit reached (30)" instead of producing a QCode. -/
theorem c1_selector_limit :
    (∀ (co : Compiler) (op : Operation) (vars : List (String × String))
       (role : String) (fuel : Nat) (qc : QCode),
       co.Compile op vars role fuel = .ok qc → qc.selects.length ≤ 30) ∧
    (∀ (co : Compiler) (role : String) (op : Operation) (fuel : Nat)
       (val : Nat) (st : List Nat) (id : Int) (qc : QCode), 30 ≤ id →
       co.compileLoop role op (fuel + 1) (val :: st) id qc =
         .error "selector limit reached (30)") := by
  constructor
  · intro co op vars role fuel qc h
    unfold Compiler.Compile at h
    dsimp only at h
    split at h
    · cases h
    · rename_i qc2 hq
      have hq30 : qc2.selects.length ≤ 30 := by
        unfold Compiler.compileQuery at hq
        split at hq
        · cases hq
        · split at hq
          · cases hq
          · exact compileLoop_length co role op fuel _ 0 _ qc2 (by rfl)
              (le_refl 0) (by decide) hq
      split at h
      · unfold Compiler.compileMutation at h
        cases h
        exact hq30
      · cases h
        exact hq30
  · intro co role op fuel val st id qc h30
    simp only [Compiler.compileLoop]
    rw [if_pos h30]

/-- Claim C8: a mutation operation whose root field carries
`delete: false` (as its first insert/update/upsert/delete argument,
matching the source's first-match scan) compiles to a QCode whose
operation kind is the plain query kind, not mutation. -/
theorem c8_delete_false_is_query (co : Compiler) (op : Operation)
    (vars : List (String × String)) (role : String) (fuel : Nat) (qc : QCode)
    (pre rest : List Arg) (d : Arg)
    (hop : op.typ = .OpMutate)
    (hargs : (op.fields.headD {}).args = pre ++ d :: rest)
    (hpre : ∀ a ∈ pre, a.name ≠ "insert" ∧ a.name ≠ "update" ∧
      a.name ≠ "upsert" ∧ a.name ≠ "delete")
    (hd : d.name = "delete") (ht : d.val.typ = .NodeBool) (hv : d.val.val = "false")
    (h : co.Compile op vars role fuel = .ok qc) :
    qc.typ = .QTQuery := by
  unfold Compiler.Compile at h
  dsimp only at h
  split at h
  · cases h
  · rename_i qc2 hq
    have hq2t : qc2.typ = .QTQuery := by
      unfold Compiler.compileQuery at hq
      split at hq
      · cases hq
      · rw [hargs,
          setMutationType_delete_false _ d rest hd ht hv pre hpre] at hq
        split at hq
        · rename_i heqq
          cases heqq
        · rename_i qc1 heqq
          have hq1 := Except.ok.inj heqq
          obtain ⟨ht2, -⟩ := compileLoop_typ co role op fuel _ 0 _ qc2 hq
          rw [ht2, ← hq1]
    rw [if_neg (by rw [hq2t]; exact fun hc => QType.noConfusion hc)] at h
    cases h
    exact hq2t

/-- Claim C2: in every compiled QCode, every non-root select's parent
id is smaller than its own id, and the parent select's `Children` list
contains the child's id.  The two hypotheses are the external parser's
output contract (§6): field ids are the dense positions in `op.Fields`
(which also keeps the 16-bit work-stack packing injective). -/
theorem c2_parent_links (co : Compiler) (op : Operation)
    (vars : List (String × String)) (role : String) (fuel : Nat) (qc : QCode)
    (hids : ∀ (j : Nat) (hj : j < op.fields.length), (op.fields[j]).id = j)
    (hlen : op.fields.length ≤ 65535)
    (h : co.Compile op vars role fuel = .ok qc) :
    ∀ sel ∈ qc.selects, sel.parentID ≠ -1 →
      sel.parentID < sel.id ∧
      ∃ psel, qc.selects[sel.parentID.toNat]? = some psel ∧
        sel.id ∈ psel.children := by
  have hwf := fields_wf op hids hlen
  unfold Compiler.Compile at h
  dsimp only at h
  split at h
  · cases h
  · rename_i qc2 hq
    have hqinv : ∀ sel ∈ qc2.selects, sel.parentID ≠ -1 →
        0 ≤ sel.parentID ∧ sel.parentID < sel.id ∧
        ∃ psel, qc2.selects[sel.parentID.toNat]? = some psel ∧
          sel.id ∈ psel.children := by
      unfold Compiler.compileQuery at hq
      split at hq
      · cases hq
      · split at hq
        · cases hq
        · rename_i qc1 heqm
          refine compileLoop_parent_invariant co role op hwf fuel _ 0 _ qc2 (by rfl)
            (le_refl 0) ?_ ?_ hq
          · intro v hv
            obtain ⟨f, hlook, hroot⟩ := rootStack_ok op hwf op.fields []
              (fun g hg => hg) (fun w hw => absurd hw (List.not_mem_nil w)) v hv
            exact ⟨f, hlook, Or.inl hroot⟩
          · intro sel hsel
            cases hsel
    split at h
    · unfold Compiler.compileMutation at h
      cases h
      intro sel hs hne
      obtain ⟨-, hb, hc⟩ := hqinv sel hs hne
      exact ⟨hb, hc⟩
    · cases h
      intro sel hs hne
      obtain ⟨-, hb, hc⟩ := hqinv sel hs hne
      exact ⟨hb, hc⟩

/-! ### A concrete two-table schema exercising the full compile pipeline -/

def cwColUID : DBColumn :=
  { schema := "public", table := "users", name := "id", typ := "bigint",
    primaryKey := true, uniqueKey := true }

def cwColPID : DBColumn :=
  { schema := "public", table := "posts", name := "id", typ := "bigint",
    primaryKey := true, uniqueKey := true }

def cwColPOwner : DBColumn :=
  { schema := "public", table := "posts", name := "owner_id", typ := "bigint",
    fKeySchema := "public", fKeyTable := "users", fKeyCol := "id" }

def cwUsers : DBTable :=
  { schema := "public", name := "users", typ := "table",
    columns := [cwColUID], primaryCol := cwColUID }

def cwPosts : DBTable :=
  { schema := "public", name := "posts", typ := "table",
    columns := [cwColPID, cwColPOwner], primaryCol := cwColPID }

def cwRelPostsUsers : DBRel :=
  { typ := .RelOneToMany,
    left := { ti := cwPosts, col := cwColPOwner },
    right := { ti := cwUsers, col := cwColUID } }

def cwFindPath (child parent : String) : Except String (List TPath) :=
  if child = "posts" ∧ parent = "users" then .ok [cwRelPostsUsers]
  else .error ("no path found: " ++ child ++ " -> " ++ parent)

def cwSchema : DBSchema :=
  { typ := "postgres", tables := [cwUsers, cwPosts], findPathFn := cwFindPath }

def cwCo : Compiler := { s := cwSchema }

def cwOp : Operation :=
  { typ := .OpQuery,
    fields :=
      [{ id := 0, parentID := -1, name := "users" },
       { id := 1, parentID := 0, name := "posts" },
       { id := 2, parentID := 1, name := "id" }] }

def cwQC : QCode := (cwCo.Compile cwOp [] "user" 10).toOption.getD {}

theorem c1_selector_limit_witness :
    (cwCo.Compile cwOp [] "user" 10 = .ok cwQC ∧ cwQC.selects.length ≤ 30) ∧
    cwCo.compileLoop "user" cwOp (4 + 1) [0] 31 {} =
      .error "selector limit reached (30)" :=
  ⟨⟨rfl, c1_selector_limit.1 cwCo cwOp [] "user" 10 cwQC rfl⟩,
   c1_selector_limit.2 cwCo "user" cwOp 4 0 [] 31 {} (by decide)⟩

theorem c2_parent_links_witness :
    cwCo.Compile cwOp [] "user" 10 = .ok cwQC ∧
    ∀ sel ∈ cwQC.selects, sel.parentID ≠ -1 →
      sel.parentID < sel.id ∧
      ∃ psel, cwQC.selects[sel.parentID.toNat]? = some psel ∧
        sel.id ∈ psel.children :=
  ⟨rfl, c2_parent_links cwCo cwOp [] "user" 10 cwQC (by decide) (by decide) rfl⟩

def c8darg : Arg := { name := "delete", val := .mk .NodeBool "" "false" [] }

def c8op : Operation :=
  { typ := .OpMutate,
    fields := [{ id := 0, parentID := -1, name := "users", args := [c8darg] }] }

def c8qc : QCode := (cwCo.Compile c8op [] "user" 10).toOption.getD {}

theorem c8_delete_false_is_query_witness :
    cwCo.Compile c8op [] "user" 10 = .ok c8qc ∧ c8qc.typ = .QTQuery :=
  ⟨rfl, c8_delete_false_is_query cwCo c8op [] "user" 10 c8qc [] [] c8darg rfl rfl
    (fun a ha => absurd ha (List.not_mem_nil a)) rfl rfl rfl rfl⟩
